import Mathlib

/-!
Verification of the Liney Link chain-assembly game against its two source
implementations:

* `docs/game.js` — the legacy version (length-cased `validateLinkage`,
  index-based `cascadeRemoval`, a `wrongGuesses` counter), embedded in
  namespace `Legacy`;
* the difficulty-mode version (`part_002`) — `validateLinkage` that accepts a
  guess linked to any chain member, `findBestInsertionPoint`,
  re-validation-based `removePlayer`, an `attemptsRemaining` counter clamped
  at 0 — embedded in namespace `Game`.

Shared between both versions: the connection table (a JS `Map` from player-id
keys to `Set`s of linked ids, modelled as an association list with a fixed
iteration order), `arePlayersLinked`, and the breadth-first
`findShortestSolution`.  Player ids are modelled as `Nat`; the JS
`toString`/`parseInt` normalisation of ids is the identity on this model, and
the string/number coercion asymmetry of `arePlayersLinked` is modelled
separately (namespace `JS`) with explicit JS values.
-/

/-- A connection table: player id → list of linked ids (a JS `Map` of `Set`s,
with the `Set` iteration order kept as a list). -/
abbrev ConnTable : Type := List (Nat × List Nat)

/-- The adjacency list stored for `v`, `[]` when `v` has no entry
(JS: `this.connections.get(v.toString())`, `undefined` → no members). -/
def nbrs (conn : ConnTable) (v : Nat) : List Nat :=
  match conn.find? (fun pr => pr.1 == v) with
  | some pr => pr.2
  | none => []

/-- `arePlayersLinked(a, b)`: look up `a`'s adjacency set and test membership
of `b` (source: `connections.get(playerId1.toString()).has(playerId2)`). -/
def arePlayersLinked (conn : ConnTable) (a b : Nat) : Bool :=
  (nbrs conn a).contains b

/-- All ids mentioned by the table (keys and adjacency members); the BFS can
only ever visit these ids plus its start id. -/
def graphNodes (conn : ConnTable) : Finset Nat :=
  conn.foldr (fun pr acc => insert pr.1 (pr.2.foldr insert acc)) ∅

/-- Consecutive elements of the list are linked (left to right, in the
direction the sources test chain adjacency). -/
def chainOk (conn : ConnTable) : List Nat → Bool
  | [] => true
  | [_] => true
  | a :: b :: rest => arePlayersLinked conn a b && chainOk conn (b :: rest)

/-- `p` is a path from `s` to `e` over the table: nonempty, starts at `s`,
ends at `e`, consecutive elements linked. -/
def isPath (conn : ConnTable) (s e : Nat) (p : List Nat) : Prop :=
  p.head? = some s ∧ p.getLast? = some e ∧ chainOk conn p = true

instance (conn : ConnTable) (s e : Nat) (p : List Nat) :
    Decidable (isPath conn s e p) := by
  unfold isPath; infer_instance

/-- The current node of a queued path (source: `path[path.length - 1]`,
with 0 as the JS-`undefined` placeholder for the unreachable empty case). -/
def endpt (p : List Nat) : Nat := p.getLastD 0

/-- One enqueue step of the BFS inner loop: skip an already-visited neighbour,
otherwise mark it visited and append the extended path to the queue
(source: the body of `for (const nextId of connections)`). -/
def bfsStep (path : List Nat) (st : Finset Nat × List (List Nat)) (n : Nat) :
    Finset Nat × List (List Nat) :=
  if n ∈ st.1 then st else (insert n st.1, st.2 ++ [path ++ [n]])

/-- The BFS `while (queue.length > 0)` loop of `findShortestSolution`,
with explicit fuel (the caller supplies fuel exceeding the loop's potential,
so the fuel-exhaustion branch is never reached; see `bfsAux_correct`). -/
def bfsAux (conn : ConnTable) (endId : Nat) :
    Nat → Finset Nat → List (List Nat) → Option (List Nat)
  | 0, _, _ => none
  | _ + 1, _, [] => none
  | fuel + 1, visited, path :: rest =>
    let cur := endpt path
    if cur = endId then some path
    else
      let st := (nbrs conn cur).foldl (bfsStep path) (visited, rest)
      bfsAux conn endId fuel st.1 st.2

/-- `findShortestSolution()`: breadth-first search from `s`, stopping at the
first dequeued path that reaches `e`; `none` when the queue empties. -/
def findShortestSolution (conn : ConnTable) (s e : Nat) : Option (List Nat) :=
  bfsAux conn e (2 * (graphNodes conn).card + 2) {s} [[s]]

/-- The loop potential that bounds the remaining BFS work: every enqueue
shrinks the unvisited portion of `graphNodes`, every dequeue shrinks the
queue. -/
def pot (conn : ConnTable) (visited : Finset Nat) (queue : List (List Nat)) :
    Nat :=
  2 * ((graphNodes conn) \ visited).card + queue.length

lemma mem_foldr_insert_of_mem_acc (m : List Nat) :
    ∀ (acc : Finset Nat) (x : Nat), x ∈ acc → x ∈ m.foldr insert acc := by
  induction m with
  | nil => intro acc x h; exact h
  | cons b m ih =>
    intro acc x h
    simp only [List.foldr_cons, Finset.mem_insert]
    exact Or.inr (ih acc x h)

lemma mem_foldr_insert_of_mem (m : List Nat) :
    ∀ (acc : Finset Nat), ∀ x ∈ m, x ∈ m.foldr insert acc := by
  induction m with
  | nil => intro acc x hx; cases hx
  | cons b m ih =>
    intro acc x hx
    simp only [List.foldr_cons, Finset.mem_insert]
    rcases List.mem_cons.mp hx with h | h
    · exact Or.inl h
    · exact Or.inr (ih acc x h)

lemma mem_graphNodes_of_entry (conn : ConnTable) (pr : Nat × List Nat)
    (hpr : pr ∈ conn) (n : Nat) (hn : n ∈ pr.2) : n ∈ graphNodes conn := by
  unfold graphNodes
  induction conn with
  | nil => cases hpr
  | cons q l ih =>
    rcases List.mem_cons.mp hpr with h | h
    · subst h
      simp only [List.foldr_cons, Finset.mem_insert]
      exact Or.inr (mem_foldr_insert_of_mem pr.2 _ n hn)
    · simp only [List.foldr_cons, Finset.mem_insert]
      exact Or.inr (mem_foldr_insert_of_mem_acc q.2 _ n (ih h))

lemma nbrs_subset_graphNodes (conn : ConnTable) (v n : Nat)
    (hn : n ∈ nbrs conn v) : n ∈ graphNodes conn := by
  unfold nbrs at hn
  cases hfind : conn.find? (fun pr => pr.1 == v) with
  | none => rw [hfind] at hn; cases hn
  | some pr =>
    rw [hfind] at hn
    exact mem_graphNodes_of_entry conn pr (List.mem_of_find?_eq_some hfind) n hn

lemma linked_of_mem_nbrs (conn : ConnTable) (v n : Nat)
    (hn : n ∈ nbrs conn v) : arePlayersLinked conn v n = true := by
  unfold arePlayersLinked
  exact List.elem_eq_true_of_mem hn

lemma mem_nbrs_of_linked (conn : ConnTable) (v n : Nat)
    (h : arePlayersLinked conn v n = true) : n ∈ nbrs conn v := by
  unfold arePlayersLinked at h
  exact List.mem_of_elem_eq_true h

lemma getLast?_eq_endpt (p : List Nat) (hp : p ≠ []) :
    p.getLast? = some (endpt p) := by
  obtain ⟨x, hx⟩ : ∃ x, p.getLast? = some x := by
    cases hq : p.getLast? with
    | none => exact absurd (List.getLast?_eq_none_iff.mp hq) hp
    | some x => exact ⟨x, rfl⟩
  rw [hx]
  unfold endpt
  rw [List.getLastD_eq_getLast?, hx]
  rfl

lemma endpt_concat (l : List Nat) (n : Nat) : endpt (l ++ [n]) = n := by
  unfold endpt
  simp [List.getLastD_eq_getLast?]

lemma head?_append_of_ne_nil (l₁ l₂ : List Nat) (h : l₁ ≠ []) :
    (l₁ ++ l₂).head? = l₁.head? := by
  cases l₁ with
  | nil => cases h rfl
  | cons a t => rfl

lemma chainOk_of_append_left (conn : ConnTable) :
    ∀ (l₁ l₂ : List Nat), chainOk conn (l₁ ++ l₂) = true →
      chainOk conn l₁ = true := by
  intro l₁
  induction l₁ with
  | nil => intro l₂ _; rfl
  | cons a t ih =>
    intro l₂ h
    cases t with
    | nil => rfl
    | cons b t' =>
      simp only [List.cons_append, chainOk, Bool.and_eq_true] at h ⊢
      exact ⟨h.1, ih l₂ h.2⟩

lemma chainOk_adj_of_append (conn : ConnTable) :
    ∀ (l₁ : List Nat) (a b : Nat) (l₂ : List Nat),
      chainOk conn (l₁ ++ a :: b :: l₂) = true →
      arePlayersLinked conn a b = true := by
  intro l₁
  induction l₁ with
  | nil =>
    intro a b l₂ h
    simp only [List.nil_append, chainOk, Bool.and_eq_true] at h
    exact h.1
  | cons c t ih =>
    intro a b l₂ h
    cases t with
    | nil =>
      simp only [List.cons_append, List.nil_append, chainOk,
        Bool.and_eq_true] at h
      exact (ih a b l₂ (by simpa [chainOk] using h.2))
    | cons d t' =>
      simp only [List.cons_append, chainOk, Bool.and_eq_true] at h
      exact ih a b l₂ (by simpa [chainOk] using h.2)

lemma chainOk_concat (conn : ConnTable) :
    ∀ (p : List Nat) (n : Nat), p ≠ [] → chainOk conn p = true →
      arePlayersLinked conn (endpt p) n = true →
      chainOk conn (p ++ [n]) = true := by
  intro p
  induction p with
  | nil => intro n h; cases h rfl
  | cons a t ih =>
    intro n _ hok hlink
    cases t with
    | nil =>
      simp only [endpt, List.getLastD_cons, List.getLastD_nil] at hlink
      simp [chainOk, hlink]
    | cons b t' =>
      simp only [chainOk, Bool.and_eq_true] at hok
      have ht : (b :: t') ≠ [] := by simp
      have he : endpt (a :: b :: t') = endpt (b :: t') := by
        unfold endpt
        simp [List.getLastD_eq_getLast?, List.getLast?_cons_cons]
      rw [he] at hlink
      have := ih n ht hok.2 hlink
      simp only [List.cons_append, chainOk, Bool.and_eq_true]
      exact ⟨hok.1, by simpa using this⟩

lemma endpt_cons (a : Nat) (t : List Nat) (ht : t ≠ []) :
    endpt (a :: t) = endpt t := by
  unfold endpt
  simp only [List.getLastD_cons]
  rw [List.getLastD_eq_getLast?, List.getLastD_eq_getLast?,
    getLast?_eq_endpt t ht]
  rfl

lemma split_first_escape (v : Finset Nat) :
    ∀ (l : List Nat) (a : Nat), l.head? = some a → a ∈ v → endpt l ∉ v →
      ∃ l₁ x y l₂, l = l₁ ++ x :: y :: l₂ ∧ x ∈ v ∧ y ∉ v ∧
        (∀ z ∈ l₁ ++ [x], z ∈ v) := by
  intro l
  induction l with
  | nil => intro a ha; cases ha
  | cons a t ih =>
    intro a0 ha hav0 hout
    have haa : a0 = a := by
      simp only [List.head?_cons, Option.some.injEq] at ha
      exact ha.symm
    have hav : a ∈ v := by rwa [haa] at hav0
    cases t with
    | nil =>
      exfalso
      apply hout
      simpa [endpt] using hav
    | cons b t' =>
      have hbt : (b :: t') ≠ [] := by simp
      rw [endpt_cons a (b :: t') hbt] at hout
      by_cases hb : b ∈ v
      · obtain ⟨l₁, x, y, l₂, hsplit, hx, hy, hpre⟩ :=
          ih b (by simp) hb hout
        refine ⟨a :: l₁, x, y, l₂, ?_, hx, hy, ?_⟩
        · simp [hsplit]
        · intro z hz
          simp only [List.cons_append, List.mem_cons] at hz
          rcases hz with h | h
          · subst h; exact hav
          · exact hpre z h
      · exact ⟨[], a, b, t', by simp, hav, hb, by simpa using hav⟩

lemma escape_bound (conn : ConnTable) (s : Nat) (visited : Finset Nat)
    (queue : List (List Nat))
    (hs : s ∈ visited)
    (hmin : ∀ p ∈ queue, ∀ q, q.head? = some s → chainOk conn q = true →
      endpt q = endpt p → p.length ≤ q.length)
    (hclosed : ∀ v ∈ visited, (∀ p ∈ queue, endpt p ≠ v) →
      ∀ n ∈ nbrs conn v, n ∈ visited) :
    ∀ q, q.head? = some s → chainOk conn q = true → endpt q ∉ visited →
      ∃ p ∈ queue, p.length + 1 ≤ q.length := by
  intro q hq hchain hout
  obtain ⟨l₁, x, y, l₂, hsplit, hx, hy, hpre⟩ :=
    split_first_escape visited q s hq hs hout
  have hadj : arePlayersLinked conn x y = true := by
    apply chainOk_adj_of_append conn l₁ x y l₂
    rw [← hsplit]
    exact hchain
  have hxep : ∃ p ∈ queue, endpt p = x := by
    by_contra hno
    push_neg at hno
    exact hy (hclosed x hx hno y (mem_nbrs_of_linked conn x y hadj))
  obtain ⟨p, hpq, hpe⟩ := hxep
  refine ⟨p, hpq, ?_⟩
  have hne : (l₁ ++ [x]) ≠ [] := by simp
  have hplen : p.length ≤ (l₁ ++ [x]).length := by
    apply hmin p hpq (l₁ ++ [x])
    · rw [← head?_append_of_ne_nil (l₁ ++ [x]) (y :: l₂) hne]
      simpa [hsplit] using hq
    · apply chainOk_of_append_left conn (l₁ ++ [x]) (y :: l₂)
      rw [show (l₁ ++ [x]) ++ (y :: l₂) = l₁ ++ x :: y :: l₂ by simp, ← hsplit]
      exact hchain
    · rw [endpt_concat, hpe]
  have hqlen : q.length = l₁.length + 2 + l₂.length := by
    rw [hsplit]; simp; omega
  simp only [List.length_append, List.length_cons, List.length_nil] at hplen
  omega

lemma ne_nil_of_head?_eq_some {l : List Nat} {a : Nat}
    (h : l.head? = some a) : l ≠ [] := by
  intro hl
  subst hl
  cases h

/-- Invariant of the BFS loop at the top of each iteration. -/
structure BfsInv (conn : ConnTable) (s e : Nat) (visited : Finset Nat)
    (queue : List (List Nat)) : Prop where
  startMem : s ∈ visited
  paths : ∀ p ∈ queue, p.head? = some s ∧ chainOk conn p = true ∧
    endpt p ∈ visited
  sorted : List.Sorted (· ≤ ·) (queue.map List.length)
  level : ∀ p ∈ queue, ∀ p₀, queue.head? = some p₀ →
    p.length ≤ p₀.length + 1
  minimal : ∀ p ∈ queue, ∀ q, q.head? = some s → chainOk conn q = true →
    endpt q = endpt p → p.length ≤ q.length
  closed : ∀ v ∈ visited, (∀ p ∈ queue, endpt p ≠ v) →
    ∀ n ∈ nbrs conn v, n ∈ visited
  endQueued : e ∈ visited → ∃ p ∈ queue, endpt p = e

/-- Invariant of the partially evaluated neighbour fold inside one BFS
iteration; `cur` is the dequeued node, `lvl` the length of the dequeued
path. -/
structure FoldInv (conn : ConnTable) (s e cur lvl : Nat)
    (visited : Finset Nat) (queue : List (List Nat)) : Prop where
  startMem : s ∈ visited
  paths : ∀ p ∈ queue, p.head? = some s ∧ chainOk conn p = true ∧
    endpt p ∈ visited
  sorted : List.Sorted (· ≤ ·) (queue.map List.length)
  bounds : ∀ p ∈ queue, lvl ≤ p.length ∧ p.length ≤ lvl + 1
  minimal : ∀ p ∈ queue, ∀ q, q.head? = some s → chainOk conn q = true →
    endpt q = endpt p → p.length ≤ q.length
  closedExc : ∀ v ∈ visited, v ≠ cur → (∀ p ∈ queue, endpt p ≠ v) →
    ∀ n ∈ nbrs conn v, n ∈ visited
  endQueued : e ∈ visited → ∃ p ∈ queue, endpt p = e
  keyBound : ∀ q, q.head? = some s → chainOk conn q = true →
    endpt q ∉ visited → lvl + 1 ≤ q.length


lemma bfsStep_spec (conn : ConnTable) (s e cur lvl : Nat) (path : List Nat)
    (hh : path.head? = some s) (hc : chainOk conn path = true)
    (hend : endpt path = cur) (hlen : path.length = lvl)
    (n : Nat) (hnG : n ∈ graphNodes conn)
    (hnadj : arePlayersLinked conn cur n = true)
    (visited : Finset Nat) (queue : List (List Nat))
    (hInv : FoldInv conn s e cur lvl visited queue) :
    FoldInv conn s e cur lvl (bfsStep path (visited, queue) n).1
        (bfsStep path (visited, queue) n).2 ∧
      n ∈ (bfsStep path (visited, queue) n).1 ∧
      visited ⊆ (bfsStep path (visited, queue) n).1 ∧
      pot conn (bfsStep path (visited, queue) n).1
          (bfsStep path (visited, queue) n).2 ≤
        pot conn visited queue := by
  by_cases hn : n ∈ visited
  · have heq : bfsStep path (visited, queue) n = (visited, queue) := by
      unfold bfsStep
      rw [if_pos hn]
    rw [heq]
    exact ⟨hInv, hn, fun x hx => hx, le_refl _⟩
  · have heq : bfsStep path (visited, queue) n =
        (insert n visited, queue ++ [path ++ [n]]) := by
      unfold bfsStep
      rw [if_neg hn]
    rw [heq]
    have hpne : path ≠ [] := ne_nil_of_head?_eq_some hh
    have hnewhead : (path ++ [n]).head? = some s := by
      rw [head?_append_of_ne_nil path [n] hpne]; exact hh
    have hnewchain : chainOk conn (path ++ [n]) = true := by
      apply chainOk_concat conn path n hpne hc
      rw [hend]; exact hnadj
    have hnewend : endpt (path ++ [n]) = n := endpt_concat path n
    have hnewlen : (path ++ [n]).length = lvl + 1 := by
      simp [hlen]
    refine ⟨?_, Finset.mem_insert_self n visited,
      Finset.subset_insert n visited, ?_⟩
    · constructor
      · exact Finset.mem_insert_of_mem hInv.startMem
      · intro p hp
        rcases List.mem_append.mp hp with h | h
        · obtain ⟨h1, h2, h3⟩ := hInv.paths p h
          exact ⟨h1, h2, Finset.mem_insert_of_mem h3⟩
        · rcases List.mem_singleton.mp h with rfl
          refine ⟨hnewhead, hnewchain, ?_⟩
          rw [hnewend]
          exact Finset.mem_insert_self n visited
      · rw [List.map_append]
        apply List.pairwise_append.mpr
        refine ⟨hInv.sorted, by simp, ?_⟩
        intro a ha b hb
        simp only [List.map_cons, List.map_nil, List.mem_singleton,
          hnewlen] at hb
        subst hb
        obtain ⟨p, hp, hpl⟩ := List.mem_map.mp ha
        rw [← hpl]
        exact (hInv.bounds p hp).2
      · intro p hp
        rcases List.mem_append.mp hp with h | h
        · exact hInv.bounds p h
        · rcases List.mem_singleton.mp h with rfl
          rw [hnewlen]
          exact ⟨Nat.le_succ lvl, le_refl _⟩
      · intro p hp q hq hqc hqe
        rcases List.mem_append.mp hp with h | h
        · exact hInv.minimal p h q hq hqc hqe
        · rcases List.mem_singleton.mp h with rfl
          rw [hnewlen]
          apply hInv.keyBound q hq hqc
          rw [hqe, hnewend]
          exact hn
      · intro v hv hvne hvnoq
        rcases Finset.mem_insert.mp hv with hveq | hv'
        · exfalso
          have hmem : path ++ [n] ∈ queue ++ [path ++ [n]] :=
            List.mem_append_right _ (by simp)
          apply hvnoq (path ++ [n]) hmem
          rw [hnewend, hveq]
        · intro m hm
          apply Finset.mem_insert_of_mem
          apply hInv.closedExc v hv' hvne _ m hm
          intro p hp
          exact hvnoq p (List.mem_append_left _ hp)
      · intro he
        rcases Finset.mem_insert.mp he with heq | he'
        · exact ⟨path ++ [n], List.mem_append_right _ (by simp),
            by rw [hnewend, heq]⟩
        · obtain ⟨p, hp, hpe⟩ := hInv.endQueued he'
          exact ⟨p, List.mem_append_left _ hp, hpe⟩
      · intro q hq hqc hqe
        apply hInv.keyBound q hq hqc
        intro hmem
        exact hqe (Finset.mem_insert_of_mem hmem)
    · unfold pot
      have hmemdiff : n ∈ graphNodes conn \ visited :=
        Finset.mem_sdiff.mpr ⟨hnG, hn⟩
      have hcard : (graphNodes conn \ insert n visited).card =
          (graphNodes conn \ visited).card - 1 := by
        rw [Finset.sdiff_insert]
        exact Finset.card_erase_of_mem hmemdiff
      have hpos : 1 ≤ (graphNodes conn \ visited).card :=
        Finset.card_pos.mpr ⟨n, hmemdiff⟩
      rw [hcard]
      simp only [List.length_append, List.length_cons, List.length_nil]
      omega

lemma foldl_bfsStep_spec (conn : ConnTable) (s e cur lvl : Nat)
    (path : List Nat)
    (hh : path.head? = some s) (hc : chainOk conn path = true)
    (hend : endpt path = cur) (hlen : path.length = lvl) :
    ∀ (ns : List Nat), (∀ n ∈ ns, n ∈ graphNodes conn) →
      (∀ n ∈ ns, arePlayersLinked conn cur n = true) →
      ∀ (visited : Finset Nat) (queue : List (List Nat)),
        FoldInv conn s e cur lvl visited queue →
        FoldInv conn s e cur lvl (ns.foldl (bfsStep path) (visited, queue)).1
            (ns.foldl (bfsStep path) (visited, queue)).2 ∧
          (∀ n ∈ ns, n ∈ (ns.foldl (bfsStep path) (visited, queue)).1) ∧
          visited ⊆ (ns.foldl (bfsStep path) (visited, queue)).1 ∧
          pot conn (ns.foldl (bfsStep path) (visited, queue)).1
              (ns.foldl (bfsStep path) (visited, queue)).2 ≤
            pot conn visited queue := by
  intro ns
  induction ns with
  | nil =>
    intro _ _ visited queue hInv
    exact ⟨hInv, by simp, fun x hx => hx, le_refl _⟩
  | cons n ns ih =>
    intro hG hadj visited queue hInv
    obtain ⟨hInv1, hn1, hsub1, hpot1⟩ :=
      bfsStep_spec conn s e cur lvl path hh hc hend hlen n
        (hG n (by simp)) (hadj n (by simp)) visited queue hInv
    have hstep : (n :: ns).foldl (bfsStep path) (visited, queue) =
        ns.foldl (bfsStep path) (bfsStep path (visited, queue) n) := by
      simp [List.foldl_cons]
    rw [hstep]
    have hpair : bfsStep path (visited, queue) n =
        ((bfsStep path (visited, queue) n).1,
          (bfsStep path (visited, queue) n).2) := rfl
    rw [hpair]
    obtain ⟨hInv2, hcov2, hsub2, hpot2⟩ :=
      ih (fun m hm => hG m (by simp [hm]))
        (fun m hm => hadj m (by simp [hm]))
        (bfsStep path (visited, queue) n).1
        (bfsStep path (visited, queue) n).2 hInv1
    refine ⟨hInv2, ?_, fun x hx => hsub2 (hsub1 hx), le_trans hpot2 hpot1⟩
    intro m hm
    rcases List.mem_cons.mp hm with hmeq | hm'
    · rw [hmeq]
      exact hsub2 hn1
    · exact hcov2 m hm'

lemma mem_of_head?_eq_some {α : Type} {l : List α} {a : α}
    (h : l.head? = some a) : a ∈ l := by
  cases l with
  | nil => cases h
  | cons b t =>
    simp only [List.head?_cons, Option.some.injEq] at h
    rw [← h]
    exact List.mem_cons_self b t

lemma endpt_of_isPath (conn : ConnTable) (s e : Nat) (q : List Nat)
    (h : isPath conn s e q) : endpt q = e := by
  have hne := ne_nil_of_head?_eq_some h.1
  have hl := getLast?_eq_endpt q hne
  rw [h.2.1] at hl
  exact (Option.some.injEq _ _ ▸ hl).symm

lemma foldInv_of_bfsInv (conn : ConnTable) (s e : Nat) (visited : Finset Nat)
    (path : List Nat) (rest : List (List Nat))
    (hInv : BfsInv conn s e visited (path :: rest))
    (hne : endpt path ≠ e) :
    FoldInv conn s e (endpt path) path.length visited rest := by
  have hsortc := List.sorted_cons.mp (by
    simpa using hInv.sorted : List.Sorted (· ≤ ·)
      (path.length :: rest.map List.length))
  constructor
  · exact hInv.startMem
  · intro p hp
    exact hInv.paths p (List.mem_cons_of_mem _ hp)
  · exact hsortc.2
  · intro p hp
    constructor
    · exact hsortc.1 p.length (List.mem_map_of_mem List.length hp)
    · exact hInv.level p (List.mem_cons_of_mem _ hp) path rfl
  · intro p hp
    exact hInv.minimal p (List.mem_cons_of_mem _ hp)
  · intro v hv hvne hnoq
    apply hInv.closed v hv
    intro p hp
    rcases List.mem_cons.mp hp with hpe | hp'
    · rw [hpe]
      exact fun hcontra => hvne hcontra.symm
    · exact hnoq p hp'
  · intro he
    obtain ⟨p, hp, hpe⟩ := hInv.endQueued he
    rcases List.mem_cons.mp hp with hpeq | hp'
    · exact absurd (hpeq ▸ hpe) hne
    · exact ⟨p, hp', hpe⟩
  · intro q hq hqc hqe
    obtain ⟨p, hp, hlenb⟩ := escape_bound conn s visited (path :: rest)
      hInv.startMem hInv.minimal hInv.closed q hq hqc hqe
    have hmin : path.length ≤ p.length := by
      rcases List.mem_cons.mp hp with hpeq | hp'
      · rw [hpeq]
      · exact hsortc.1 p.length (List.mem_map_of_mem List.length hp')
    omega

lemma bfsInv_of_foldInv (conn : ConnTable) (s e cur lvl : Nat)
    (visited : Finset Nat) (queue : List (List Nat))
    (hF : FoldInv conn s e cur lvl visited queue)
    (hcov : ∀ n ∈ nbrs conn cur, n ∈ visited) :
    BfsInv conn s e visited queue := by
  constructor
  · exact hF.startMem
  · exact hF.paths
  · exact hF.sorted
  · intro p hp p₀ hp₀
    have hp₀m : p₀ ∈ queue := mem_of_head?_eq_some hp₀
    have h1 := (hF.bounds p hp).2
    have h2 := (hF.bounds p₀ hp₀m).1
    omega
  · exact hF.minimal
  · intro v hv hnoq m hm
    by_cases hvc : v = cur
    · rw [hvc] at hm
      exact hcov m hm
    · exact hF.closedExc v hv hvc hnoq m hm
  · exact hF.endQueued

lemma bfsAux_correct (conn : ConnTable) (s e : Nat) :
    ∀ (fuel : Nat) (visited : Finset Nat) (queue : List (List Nat)),
      BfsInv conn s e visited queue → pot conn visited queue < fuel →
      (∀ p, bfsAux conn e fuel visited queue = some p →
        isPath conn s e p ∧ ∀ q, isPath conn s e q → p.length ≤ q.length) ∧
      (bfsAux conn e fuel visited queue = none →
        ∀ q, ¬ isPath conn s e q) := by
  intro fuel
  induction fuel with
  | zero =>
    intro visited queue _ hpot
    exact absurd hpot (Nat.not_lt_zero _)
  | succ fuel ih =>
    intro visited queue hInv hpot
    cases queue with
    | nil =>
      constructor
      · intro p hp
        exact Option.noConfusion hp
      · intro _ q hq
        have hqe : endpt q = e := endpt_of_isPath conn s e q hq
        have hnotin : e ∉ visited := by
          intro he
          obtain ⟨p, hp, _⟩ := hInv.endQueued he
          exact absurd hp (List.not_mem_nil p)
        obtain ⟨p, hp, _⟩ := escape_bound conn s visited []
          hInv.startMem hInv.minimal hInv.closed q hq.1 hq.2.2
          (by rw [hqe]; exact hnotin)
        exact absurd hp (List.not_mem_nil p)
    | cons path rest =>
      have hpfacts := hInv.paths path (List.mem_cons_self path rest)
      have hpne : path ≠ [] := ne_nil_of_head?_eq_some hpfacts.1
      have hunfold : bfsAux conn e (fuel + 1) visited (path :: rest) =
          (if endpt path = e then some path
           else bfsAux conn e fuel
             ((nbrs conn (endpt path)).foldl (bfsStep path) (visited, rest)).1
             ((nbrs conn (endpt path)).foldl (bfsStep path)
               (visited, rest)).2) := rfl
      by_cases hcur : endpt path = e
      · rw [hunfold, if_pos hcur]
        constructor
        · intro p hp
          have hpp : p = path := by
            injection hp with h
            exact h.symm
          rw [hpp]
          constructor
          · refine ⟨hpfacts.1, ?_, hpfacts.2.1⟩
            rw [getLast?_eq_endpt path hpne, hcur]
          · intro q hq
            apply hInv.minimal path (List.mem_cons_self path rest) q
              hq.1 hq.2.2
            rw [endpt_of_isPath conn s e q hq, hcur]
        · intro hnone
          exact Option.noConfusion hnone
      · have hF0 := foldInv_of_bfsInv conn s e visited path rest hInv hcur
        obtain ⟨hF1, hcov, hsub, hpot1⟩ :=
          foldl_bfsStep_spec conn s e (endpt path) path.length path
            hpfacts.1 hpfacts.2.1 rfl rfl (nbrs conn (endpt path))
            (fun n hn => nbrs_subset_graphNodes conn (endpt path) n hn)
            (fun n hn => linked_of_mem_nbrs conn (endpt path) n hn)
            visited rest hF0
        have hInv' := bfsInv_of_foldInv conn s e (endpt path) path.length
          _ _ hF1 (fun n hn => hcov n hn)
        have hstep : pot conn visited (path :: rest) =
            pot conn visited rest + 1 := by
          unfold pot
          simp only [List.length_cons]
          omega
        have hpot' : pot conn
            ((nbrs conn (endpt path)).foldl (bfsStep path) (visited, rest)).1
            ((nbrs conn (endpt path)).foldl (bfsStep path)
              (visited, rest)).2 < fuel := by
          omega
        rw [hunfold, if_neg hcur]
        exact ih _ _ hInv' hpot'

lemma bfsInv_of_start (conn : ConnTable) (s e : Nat) :
    BfsInv conn s e {s} [[s]] := by
  have hend : endpt [s] = s := rfl
  constructor
  · exact Finset.mem_singleton_self s
  · intro p hp
    simp only [List.mem_singleton] at hp
    rw [hp]
    exact ⟨rfl, rfl, by rw [hend]; exact Finset.mem_singleton_self s⟩
  · simp
  · intro p hp p₀ hp₀
    simp only [List.mem_singleton] at hp
    simp only [List.head?_cons, Option.some.injEq] at hp₀
    rw [hp, ← hp₀]
    simp
  · intro p hp q hq _ _
    simp only [List.mem_singleton] at hp
    rw [hp]
    simp only [List.length_cons, List.length_nil]
    have : q ≠ [] := ne_nil_of_head?_eq_some hq
    have := List.length_pos.mpr this
    omega
  · intro v hv hnoq
    exfalso
    apply hnoq [s] (List.mem_singleton_self _)
    rw [hend]
    exact (Finset.mem_singleton.mp hv).symm
  · intro he
    exact ⟨[s], List.mem_singleton_self _,
      by rw [hend]; exact (Finset.mem_singleton.mp he).symm⟩

lemma findShortestSolution_spec (conn : ConnTable) (s e : Nat) :
    (∀ p, findShortestSolution conn s e = some p →
      isPath conn s e p ∧ ∀ q, isPath conn s e q → p.length ≤ q.length) ∧
    (findShortestSolution conn s e = none → ∀ q, ¬ isPath conn s e q) := by
  have hpot : pot conn {s} [[s]] < 2 * (graphNodes conn).card + 2 := by
    unfold pot
    have hsub : graphNodes conn \ {s} ⊆ graphNodes conn :=
      Finset.sdiff_subset
    have := Finset.card_le_card hsub
    simp only [List.length_cons, List.length_nil]
    omega
  unfold findShortestSolution
  exact bfsAux_correct conn s e _ _ _ (bfsInv_of_start conn s e) hpot

/-- A three-node example table: 1 — 2 — 3. -/
def exConn : ConnTable := [(1, [2]), (2, [1, 3]), (3, [2])]

/-- C3: for every connection table (adjacency map) and endpoint pair,
`findShortestSolution` returns a path from start to end with the minimal
possible number of nodes when the endpoints are connected, and `null`
(`none`) otherwise; being a pure function of the unchanged table, calling it
twice returns the same path. -/
theorem C3_findShortestSolution_minimal (conn : ConnTable) (s e : Nat) :
    (∀ p, findShortestSolution conn s e = some p →
      isPath conn s e p ∧ ∀ q, isPath conn s e q → p.length ≤ q.length) ∧
    (findShortestSolution conn s e = none → ∀ q, ¬ isPath conn s e q) ∧
    findShortestSolution conn s e = findShortestSolution conn s e := by
  obtain ⟨h1, h2⟩ := findShortestSolution_spec conn s e
  exact ⟨h1, h2, rfl⟩

/-- Witness for C3: on the table 1 — 2 — 3 the BFS returns `[1, 2, 3]`,
which is a path and is minimal. -/
theorem C3_witness :
    isPath exConn 1 3 [1, 2, 3] ∧
      ∀ q, isPath exConn 1 3 q → 3 ≤ q.length := by
  have h := (C3_findShortestSolution_minimal exConn 1 3).1 [1, 2, 3]
    (by decide)
  exact ⟨h.1, fun q hq => by simpa using h.2 q hq⟩

/-- A raw JS id value as it occurs in the loaded JSON data: a number or a
string.  JS `Set.has` membership uses SameValueZero equality, under which a
number is never equal to a string. -/
inductive JSVal where
  | num : Int → JSVal
  | str : String → JSVal
deriving DecidableEq, Repr

namespace JS

/-- JS `toString()` on an id value: a number prints in decimal, a string is
itself. -/
def toKey : JSVal → String
  | .num n => toString n
  | .str s => s

/-- The connection `Map` keyed by strings (`Object.entries` keys), each
adjacency `Set` holding raw JSON values that may mix numbers and strings. -/
abbrev Table := List (String × List JSVal)

/-- `arePlayersLinked(a, b)` at the JS value level: only the FIRST argument
is converted with `toString()`; the second is tested with `Set.has` without
any conversion (source: `this.connections.get(playerId1.toString())` and
`connections.has(playerId2)`). -/
def arePlayersLinked (t : Table) (a b : JSVal) : Bool :=
  match t.find? (fun pr => pr.1 == toKey a) with
  | some pr => pr.2.contains b
  | none => false

end JS

/-- C10: the id-coercion asymmetry of `arePlayersLinked`.  (1) There is a
table whose adjacency sets mix string and numeric ids on which
`arePlayersLinked a b` is truthy while `arePlayersLinked b a` is falsy.
(2) A numeric id never matches a string entry in an adjacency set: if every
stored member of every set is a string, a numeric second argument never
tests linked. -/
theorem C10_arePlayersLinked_asymmetric :
    (∃ (t : JS.Table) (a b : JSVal),
      JS.arePlayersLinked t a b = true ∧ JS.arePlayersLinked t b a = false) ∧
    (∀ (t : JS.Table) (a : JSVal) (n : Int),
      (∀ pr ∈ t, ∀ x ∈ pr.2, ∃ s, x = JSVal.str s) →
      JS.arePlayersLinked t a (JSVal.num n) = false) := by
  constructor
  · refine ⟨[("1", [JSVal.str "2", JSVal.num 3])],
      JSVal.num 1, JSVal.str "2", ?_, ?_⟩ <;> decide
  · intro t a n hstr
    unfold JS.arePlayersLinked
    cases hfind : t.find? (fun pr => pr.1 == JS.toKey a) with
    | none => rfl
    | some pr =>
      have hpr : pr ∈ t := List.mem_of_find?_eq_some hfind
      cases hcon : pr.2.contains (JSVal.num n) with
      | false => exact hcon
      | true =>
        exfalso
        have hmem : JSVal.num n ∈ pr.2 := List.mem_of_elem_eq_true hcon
        obtain ⟨s, hs⟩ := hstr pr hpr (JSVal.num n) hmem
        exact JSVal.noConfusion hs

/-- Witness for C10 part (2): on a table whose single set holds only the
string id, the numeric id 2 never tests linked. -/
theorem C10_witness :
    JS.arePlayersLinked [("1", [JSVal.str "2"])] (JSVal.num 1)
      (JSVal.num 2) = false := by
  apply C10_arePlayersLinked_asymmetric.2
  intro pr hpr x hx
  simp only [List.mem_singleton] at hpr
  rw [hpr] at hx
  simp only [List.mem_singleton] at hx
  exact ⟨"2", hx⟩

/-- A chain entry: player id plus the target (anchor) tag; the display name
is irrelevant to the game logic and omitted. -/
structure Player where
  id : Nat
  isTarget : Bool
deriving DecidableEq, Repr

/-- Placeholder for the JS `undefined` produced by an out-of-range array
index; the embedded code only indexes in range. -/
def dummy : Player := ⟨0, false⟩

/-- 1 when the adjacent pair `p, q` is a gap (not linked), 0 otherwise. -/
def gapAt (conn : ConnTable) (p q : Player) : Nat :=
  if arePlayersLinked conn p.id q.id then 0 else 1

/-- Number of positions at which consecutive chain members are not linked
(the spec's "gaps"). -/
def gapCount (conn : ConnTable) : List Player → Nat
  | [] => 0
  | [_] => 0
  | p :: q :: rest => gapAt conn p q + gapCount conn (q :: rest)

namespace Game

/-- The mutable session state of the difficulty-mode version. -/
structure GameState where
  playerChain : List Player
  attemptsRemaining : Int
  gameComplete : Bool
  gameFailed : Bool
deriving DecidableEq, Repr

/-- Rejection reasons of `validateLinkage` (the two `isValid: false`
branches). -/
inductive Reason where
  | duplicate
  | notConnected
deriving DecidableEq, Repr

/-- Result of `validateLinkage`: rejection, or acceptance with the
insertion index. -/
inductive VResult where
  | invalid : Reason → VResult
  | valid : Nat → VResult
deriving DecidableEq, Repr

/-- Result of one `addLinkage` call: early return (game complete),
rejection with the shown reason, or successful insertion. -/
inductive Outcome where
  | ignored
  | rejected : Reason → Outcome
  | accepted
deriving DecidableEq, Repr

/-- The indices of chain members the guessed player links to (source: the
`connectedToPlayers` loop over `this.playerChain`, kept in ascending
order exactly as built). -/
def connectedIdx (conn : ConnTable) (chain : List Player) (pid : Nat) :
    List Nat :=
  (List.range chain.length).filter
    (fun i => arePlayersLinked conn pid (chain.getD i dummy).id)

/-- The `for (const conn of nonTargetConnections)` loop of
`findBestInsertionPoint` with its two early returns. -/
def scanNonTarget (conn : ConnTable) (chain : List Player) :
    List Nat → Option Nat
  | [] => none
  | i :: rest =>
    if 0 < i ∧ arePlayersLinked conn (chain.getD i dummy).id
        (chain.getD (i - 1) dummy).id = true then
      some (i + 1)
    else if i < chain.length - 1 ∧ arePlayersLinked conn
        (chain.getD i dummy).id (chain.getD (i + 1) dummy).id = true then
      some i
    else
      scanNonTarget conn chain rest

/-- `findBestInsertionPoint` of the difficulty-mode version, taking the
ascending list of connected chain indices. -/
def findBestInsertionPoint (conn : ConnTable) (chain : List Player)
    (connected : List Nat) : Nat :=
  let endIndex := chain.length - 1
  let targetConnections :=
    connected.filter (fun i => (chain.getD i dummy).isTarget)
  let nonTargetConnections :=
    connected.filter (fun i => !(chain.getD i dummy).isTarget)
  if 0 < nonTargetConnections.length then
    match scanNonTarget conn chain nonTargetConnections with
    | some k => k
    | none => nonTargetConnections.headD 0 + 1
  else
    let connectedToStart := targetConnections.contains 0
    let connectedToEnd := targetConnections.contains endIndex
    if connectedToStart && !connectedToEnd then 1
    else if connectedToEnd && !connectedToStart then endIndex
    else if connectedToStart && connectedToEnd then 1
    else 1

/-- `validateLinkage(playerId)` of the difficulty-mode version: duplicate
check, any-chain-member linkage check, wrong-guess accounting with the
clamp of `attemptsRemaining` at 0 and the transition to failed
(`failGame`). -/
def validateLinkage (conn : ConnTable) (st : GameState) (pid : Nat) :
    GameState × VResult :=
  if st.playerChain.any (fun p => p.id == pid) then
    (st, .invalid .duplicate)
  else
    let connected := connectedIdx conn st.playerChain pid
    if connected.isEmpty then
      let a := st.attemptsRemaining - 1
      if a ≤ 0 then
        ({ st with attemptsRemaining := 0, gameFailed := true },
          .invalid .notConnected)
      else
        ({ st with attemptsRemaining := a }, .invalid .notConnected)
    else
      (st, .valid (findBestInsertionPoint conn st.playerChain connected))

/-- `insertPlayerInChain`: `splice(insertionIndex, 0, newPlayer)` with the
new player tagged `isTarget: false`; `splice` clamps the index to the
array length. -/
def insertPlayerInChain (chain : List Player) (pid : Nat) (idx : Nat) :
    List Player :=
  chain.insertIdx (min idx chain.length) ⟨pid, false⟩

/-- `isPuzzleComplete` of the difficulty-mode version: at least one
non-target member and every adjacent pair linked. -/
def isPuzzleComplete (conn : ConnTable) (chain : List Player) : Bool :=
  chain.any (fun p => !p.isTarget) && chainOk conn (chain.map Player.id)

/-- `addLinkage()` — the submit-guess operation with `pid` the selected
player: early return when the game is complete (note: NOT when it is
failed), validation, insertion, completion check (`completePuzzle`). -/
def addLinkage (conn : ConnTable) (st : GameState) (pid : Nat) :
    GameState × Outcome :=
  if st.gameComplete then (st, .ignored)
  else
    match validateLinkage conn st pid with
    | (st', .invalid r) => (st', .rejected r)
    | (st', .valid idx) =>
      let chain' := insertPlayerInChain st'.playerChain pid idx
      let st'' := { st' with playerChain := chain' }
      if isPuzzleComplete conn chain' then
        ({ st'' with gameComplete := true }, .accepted)
      else
        (st'', .accepted)

/-- One of the two re-validation trace loops of `removePlayer`: walk the
given index order, keeping players linked to the last kept one, stopping
at the first break. -/
def traceLoop (conn : ConnTable) (chain : List Player) :
    List Nat → Nat → List Nat → List Nat
  | [], _, acc => acc
  | i :: rest, lastValid, acc =>
    if arePlayersLinked conn (chain.getD i dummy).id
        (chain.getD lastValid dummy).id then
      traceLoop conn chain rest i (acc ++ [(chain.getD i dummy).id])
    else
      acc

/-- `removePlayer(playerId)` of the difficulty-mode version: guarded on
complete/failed, splice the player out, re-validate both runs by tracing
from each end, keep targets plus traced-valid players, re-check
completion. -/
def removePlayer (conn : ConnTable) (st : GameState) (pid : Nat) :
    GameState :=
  if st.gameComplete || st.gameFailed then st
  else
    match st.playerChain.findIdx? (fun p => p.id == pid) with
    | none => st
    | some playerIndex =>
      let chain1 := st.playerChain.eraseIdx playerIndex
      let endIndex := chain1.length - 1
      let fromStart := traceLoop conn chain1
        (List.range' 1 (chain1.length - 2)) 0 []
      let fromEnd := traceLoop conn chain1
        (List.range' 1 (chain1.length - 2)).reverse endIndex []
      let validIds := [(chain1.getD 0 dummy).id,
        (chain1.getD endIndex dummy).id] ++ fromStart ++ fromEnd
      let chain2 := chain1.filter
        (fun p => p.isTarget || validIds.contains p.id)
      let st' := { st with playerChain := chain2 }
      if isPuzzleComplete conn chain2 then
        { st' with gameComplete := true }
      else
        st'

end Game


lemma game_validateLinkage_dup (conn : ConnTable) (st : Game.GameState)
    (pid : Nat) (hdup : st.playerChain.any (fun p => p.id == pid) = true) :
    Game.validateLinkage conn st pid =
      (st, Game.VResult.invalid Game.Reason.duplicate) := by
  unfold Game.validateLinkage
  rw [if_pos hdup]

lemma game_validateLinkage_notConn (conn : ConnTable) (st : Game.GameState)
    (pid : Nat) (hdup : st.playerChain.any (fun p => p.id == pid) = false)
    (hconn : (Game.connectedIdx conn st.playerChain pid).isEmpty = true) :
    Game.validateLinkage conn st pid =
      (if st.attemptsRemaining - 1 ≤ 0 then
        { st with attemptsRemaining := 0, gameFailed := true }
       else { st with attemptsRemaining := st.attemptsRemaining - 1 },
       Game.VResult.invalid Game.Reason.notConnected) := by
  unfold Game.validateLinkage
  rw [if_neg (by simp [hdup])]
  dsimp only
  rw [if_pos hconn]
  split <;> rfl

lemma game_validateLinkage_valid (conn : ConnTable) (st : Game.GameState)
    (pid : Nat) (hdup : st.playerChain.any (fun p => p.id == pid) = false)
    (hconn : (Game.connectedIdx conn st.playerChain pid).isEmpty = false) :
    Game.validateLinkage conn st pid =
      (st, Game.VResult.valid (Game.findBestInsertionPoint conn
        st.playerChain (Game.connectedIdx conn st.playerChain pid))) := by
  unfold Game.validateLinkage
  rw [if_neg (by simp [hdup])]
  dsimp only
  rw [if_neg (by simp [hconn])]

lemma game_validateLinkage_chain (conn : ConnTable) (st : Game.GameState)
    (pid : Nat) :
    (Game.validateLinkage conn st pid).1.playerChain = st.playerChain := by
  unfold Game.validateLinkage
  dsimp only
  split
  · rfl
  · split
    · split <;> rfl
    · rfl

lemma game_validateLinkage_attempts_nonneg (conn : ConnTable)
    (st : Game.GameState) (pid : Nat) (h : 0 ≤ st.attemptsRemaining) :
    0 ≤ (Game.validateLinkage conn st pid).1.attemptsRemaining := by
  unfold Game.validateLinkage
  dsimp only
  split
  · exact h
  · split
    · split
      · exact le_refl 0
      · next hcond =>
        dsimp only
        omega
    · exact h

/-- C7: a guess whose id is already in the chain is rejected by
`validateLinkage` with the duplicate reason and with the entire state —
in particular the remaining-attempt budget — unchanged (only the
not-connected branch consumes attempts). -/
theorem C7_duplicate_guess_rejected (conn : ConnTable)
    (st : Game.GameState) (pid : Nat)
    (hdup : pid ∈ st.playerChain.map Player.id) :
    Game.validateLinkage conn st pid =
      (st, Game.VResult.invalid Game.Reason.duplicate) := by
  apply game_validateLinkage_dup
  rw [List.any_eq_true]
  obtain ⟨p, hp, hpe⟩ := List.mem_map.mp hdup
  exact ⟨p, hp, by simp [hpe]⟩

/-- Witness for C7 at a concrete state: the duplicate guess 1 is rejected
and the attempt budget stays 3. -/
theorem C7_witness :
    Game.validateLinkage exConn
        ⟨[⟨1, true⟩, ⟨3, true⟩], 3, false, false⟩ 1 =
      (⟨[⟨1, true⟩, ⟨3, true⟩], 3, false, false⟩,
        Game.VResult.invalid Game.Reason.duplicate) :=
  C7_duplicate_guess_rejected exConn
    ⟨[⟨1, true⟩, ⟨3, true⟩], 3, false, false⟩ 1 (by decide)

/-- C5: whenever a guess is not accepted (early return on a complete game,
duplicate, or not connected), the chain after the `addLinkage` call is
identical to the chain before it. -/
theorem C5_rejected_guess_leaves_chain (conn : ConnTable)
    (st : Game.GameState) (pid : Nat)
    (h : (Game.addLinkage conn st pid).2 ≠ Game.Outcome.accepted) :
    (Game.addLinkage conn st pid).1.playerChain = st.playerChain := by
  unfold Game.addLinkage at h ⊢
  by_cases hc : st.gameComplete = true
  · rw [if_pos hc]
  · rw [if_neg hc] at h ⊢
    have hchain := game_validateLinkage_chain conn st pid
    rcases hv : Game.validateLinkage conn st pid with ⟨st', r⟩
    rw [hv] at hchain h
    cases r with
    | invalid r => exact hchain
    | valid idx =>
      exfalso
      apply h
      dsimp only
      split <;> rfl

/-- Witness for C5: a not-connected guess (id 9) at a concrete open state
leaves the two-anchor chain unchanged. -/
theorem C5_witness :
    (Game.addLinkage exConn ⟨[⟨1, true⟩, ⟨3, true⟩], 3, false, false⟩
        9).1.playerChain = [⟨1, true⟩, ⟨3, true⟩] :=
  C5_rejected_guess_leaves_chain exConn
    ⟨[⟨1, true⟩, ⟨3, true⟩], 3, false, false⟩ 9 (by decide)

/-- C9: `addLinkage` never drives the exposed attempt counter below 0: a
wrong guess decrements it and the result is clamped back to exactly 0
before the session is failed, so from any state with a non-negative
counter — including wrong guesses submitted after exhaustion — the counter
stays non-negative. -/
theorem C9_attempts_never_negative (conn : ConnTable)
    (st : Game.GameState) (pid : Nat) (h : 0 ≤ st.attemptsRemaining) :
    0 ≤ (Game.addLinkage conn st pid).1.attemptsRemaining := by
  unfold Game.addLinkage
  by_cases hc : st.gameComplete = true
  · rw [if_pos hc]
    exact h
  · rw [if_neg hc]
    have hatt := game_validateLinkage_attempts_nonneg conn st pid h
    rcases hv : Game.validateLinkage conn st pid with ⟨st', r⟩
    rw [hv] at hatt
    cases r with
    | invalid r => exact hatt
    | valid idx =>
      dsimp only
      split <;> exact hatt

/-- Witness for C9: a wrong guess submitted with the counter already at 0
(a failed session) leaves the counter at exactly 0, not −1. -/
theorem C9_witness :
    0 ≤ (Game.addLinkage exConn
      ⟨[⟨1, true⟩, ⟨3, true⟩], 0, false, true⟩ 9).1.attemptsRemaining :=
  C9_attempts_never_negative exConn
    ⟨[⟨1, true⟩, ⟨3, true⟩], 0, false, true⟩ 9 (by decide)

/-- Connection table for the counterexamples: 1 ↔ 2, 1 ↔ 5 (symmetric),
4 isolated. -/
def exConn2 : ConnTable := [(1, [2, 5]), (2, [1]), (5, [1]), (4, [])]

/-- The initial two-anchor session between players 1 and 4. -/
def exStart : Game.GameState := ⟨[⟨1, true⟩, ⟨4, true⟩], 3, false, false⟩

/-- Counterexample to C1 as stated: in the open state with chain
`[1, 2, 4]` and its single gap between 2 and 4, the frontier nodes are 2
and 4; the guess 5 is linked to neither of them (in either direction), yet
`addLinkage` accepts it (it is linked to the non-frontier anchor 1), the
chain length changes from 3 to 4, and no attempt is consumed. -/
theorem C1_counterexample :
    (Game.addLinkage exConn2 exStart 2).1 =
      ⟨[⟨1, true⟩, ⟨2, false⟩, ⟨4, true⟩], 3, false, false⟩ ∧
    gapCount exConn2 [⟨1, true⟩, ⟨2, false⟩, ⟨4, true⟩] = 1 ∧
    arePlayersLinked exConn2 5 2 = false ∧
    arePlayersLinked exConn2 5 4 = false ∧
    arePlayersLinked exConn2 2 5 = false ∧
    arePlayersLinked exConn2 4 5 = false ∧
    (Game.addLinkage exConn2
      ⟨[⟨1, true⟩, ⟨2, false⟩, ⟨4, true⟩], 3, false, false⟩ 5).2 =
      Game.Outcome.accepted ∧
    (Game.addLinkage exConn2
      ⟨[⟨1, true⟩, ⟨2, false⟩, ⟨4, true⟩], 3, false, false⟩
      5).1.playerChain.length = 4 ∧
    (Game.addLinkage exConn2
      ⟨[⟨1, true⟩, ⟨2, false⟩, ⟨4, true⟩], 3, false, false⟩
      5).1.attemptsRemaining = 3 := by
  decide

/-- C1 as amended: a submitted guess that is linked to NO node of the chain
(and is not already in it), in an open session (not complete, not failed,
budget positive), leaves the chain unchanged and decrements the
remaining-attempt count by exactly one. -/
theorem C1_unlinked_guess_decrements (conn : ConnTable)
    (st : Game.GameState) (pid : Nat)
    (hopen : st.gameComplete = false ∧ st.gameFailed = false ∧
      1 ≤ st.attemptsRemaining)
    (hnodup : ∀ p ∈ st.playerChain, p.id ≠ pid)
    (hnolink : ∀ p ∈ st.playerChain,
      arePlayersLinked conn pid p.id = false) :
    (Game.addLinkage conn st pid).1.playerChain = st.playerChain ∧
    (Game.addLinkage conn st pid).1.attemptsRemaining =
      st.attemptsRemaining - 1 := by
  have hdup : st.playerChain.any (fun p => p.id == pid) = false := by
    rw [List.any_eq_false]
    intro p hp
    simp [hnodup p hp]
  have hconn : Game.connectedIdx conn st.playerChain pid = [] := by
    unfold Game.connectedIdx
    rw [List.filter_eq_nil_iff]
    intro i hi
    have hilt : i < st.playerChain.length := List.mem_range.mp hi
    have hmem : st.playerChain.getD i dummy ∈ st.playerChain := by
      rw [List.getD_eq_getElem st.playerChain dummy hilt]
      exact List.getElem_mem hilt
    rw [hnolink _ hmem]
    simp
  have hval := game_validateLinkage_notConn conn st pid hdup
    (by rw [hconn]; rfl)
  unfold Game.addLinkage
  rw [if_neg (by simp [hopen.1]), hval]
  dsimp only
  split
  · next hle =>
    constructor
    · rfl
    · dsimp only
      omega
  · exact ⟨rfl, rfl⟩

/-- Witness for C1 (amended): guess 9, linked to nothing, at the initial
open state leaves the chain at the two anchors and drops the budget from
3 to 2. -/
theorem C1_witness :
    (Game.addLinkage exConn2 exStart 9).1.playerChain =
        [⟨1, true⟩, ⟨4, true⟩] ∧
      (Game.addLinkage exConn2 exStart 9).1.attemptsRemaining = 2 := by
  have h := C1_unlinked_guess_decrements exConn2 exStart 9
    (by refine ⟨rfl, rfl, ?_⟩; decide)
    (by decide) (by decide)
  exact ⟨h.1, h.2⟩

/-- A failed session (budget exhausted) between anchors 1 and 4. -/
def exFailed : Game.GameState := ⟨[⟨1, true⟩, ⟨4, true⟩], 0, false, true⟩

/-- C4 (code bug): `addLinkage` guards only on `gameComplete`, not on
`gameFailed`, so in a Failed session a guess linked to an anchor is still
accepted and mutates the chain — the session is not terminal for
`submitGuess`.  `removePlayer`, by contrast, is correctly guarded and is a
no-op after Failed, and nothing ever resets the Failed flag. -/
theorem C4_submit_after_failed_mutates :
    exFailed.gameFailed = true ∧
    (Game.addLinkage exConn2 exFailed 2).2 = Game.Outcome.accepted ∧
    (Game.addLinkage exConn2 exFailed 2).1.playerChain.map Player.id =
      [1, 2, 4] ∧
    exFailed.playerChain.map Player.id = [1, 4] ∧
    (Game.addLinkage exConn2 exFailed 2).1.gameFailed = true ∧
    Game.removePlayer exConn2 exFailed 2 = exFailed := by
  decide

/-- Chain-and-run structure for the C2 counterexample: 1 — 2 — 3 linked
(and also 1 — 3), 4 isolated. -/
def exConn3 : ConnTable := [(1, [2, 3]), (2, [1, 3]), (3, [2, 1]), (4, [])]

/-- Counterexample to C2 as stated: open chain `[1, 2, 3, 4]` whose left
run 1—2—3 is fully linked and whose single gap is between 3 and 4.
Removing the guess 2 (position 1) must, per the claim, also remove the
guess 3 (strictly between position 1 and the gap on the same run); the
difficulty-mode `removePlayer` keeps 3, because after the splice 3 is
directly linked to its new predecessor 1. -/
theorem C2_counterexample :
    arePlayersLinked exConn3 1 2 = true ∧
    arePlayersLinked exConn3 2 3 = true ∧
    arePlayersLinked exConn3 3 4 = false ∧
    gapCount exConn3
      [⟨1, true⟩, ⟨2, false⟩, ⟨3, false⟩, ⟨4, true⟩] = 1 ∧
    (Game.removePlayer exConn3
      ⟨[⟨1, true⟩, ⟨2, false⟩, ⟨3, false⟩, ⟨4, true⟩], 3, false, false⟩
      2).playerChain = [⟨1, true⟩, ⟨3, false⟩, ⟨4, true⟩] := by
  decide

/-- Counterexample to C6 as stated: from the initial two-anchor chain
`[1, 4]`, two accepted insertions (2, linked to anchor 1; then 5, linked
only to anchor 1) produce the chain `[1, 5, 2, 4]` with TWO gaps. -/
theorem C6_counterexample :
    (Game.addLinkage exConn2 exStart 2).2 = Game.Outcome.accepted ∧
    (Game.addLinkage exConn2
      (Game.addLinkage exConn2 exStart 2).1 5).2 =
      Game.Outcome.accepted ∧
    (Game.addLinkage exConn2
      (Game.addLinkage exConn2 exStart 2).1 5).1.playerChain.map
        Player.id = [1, 5, 2, 4] ∧
    gapCount exConn2
      (Game.addLinkage exConn2
        (Game.addLinkage exConn2 exStart 2).1 5).1.playerChain = 2 := by
  decide

/-- Fully linked chain 1 — 2 — 3 — 4 (adjacent pairs only, symmetric). -/
def exConn4 : ConnTable := [(1, [2]), (2, [1, 3]), (3, [2, 4]), (4, [3])]

/-- The fully linked session `[A, B, C, D]` = `[1, 2, 3, 4]` of the C8
scenario, with the complete flag not yet set. -/
def exComplete : Game.GameState :=
  ⟨[⟨1, true⟩, ⟨2, false⟩, ⟨3, false⟩, ⟨4, true⟩], 3, false, false⟩

/-- Counterexample to C8 as stated: on the fully linked chain
`[1, 2, 3, 4]`, removing the guess 2 does NOT cascade to remove 3 — the
result is `[1, 3, 4]`, not `[1, 4]`. -/
theorem C8_counterexample :
    chainOk exConn4 [1, 2, 3, 4] = true ∧
    (Game.removePlayer exConn4 exComplete 2).playerChain.map Player.id =
      [1, 3, 4] ∧
    [1, 3, 4] ≠ ([1, 4] : List Nat) := by
  decide

/-- C8 as amended: from the fully linked chain `[1, 2, 3, 4]` (every
adjacent pair linked, all other pairs unlinked), removing guess 2 removes
only 2 itself; 3 survives because it is still linked to its anchor-side
neighbour 4, leaving `[1, 3, 4]` with the gap reopened between 1 and 3.
If the session's Complete flag is set — which holds whenever the chain was
completed by play — `removePlayer` is a no-op. -/
theorem C8_amended_remove_keeps_linked_neighbour :
    chainOk exConn4 [1, 2, 3, 4] = true ∧
    (Game.removePlayer exConn4 exComplete 2).playerChain.map Player.id =
      [1, 3, 4] ∧
    arePlayersLinked exConn4 1 3 = false ∧
    arePlayersLinked exConn4 3 4 = true ∧
    gapCount exConn4 (Game.removePlayer exConn4 exComplete 2).playerChain
      = 1 ∧
    Game.removePlayer exConn4 { exComplete with gameComplete := true } 2 =
      { exComplete with gameComplete := true } := by
  decide

namespace Legacy

/-- The mutable session state of the legacy version (`wrongGuesses` counts
up toward `maxWrongGuesses = 3`). -/
structure GameState where
  playerChain : List Player
  wrongGuesses : Int
  gameComplete : Bool
  gameFailed : Bool
deriving DecidableEq, Repr

/-- `this.maxWrongGuesses = 3`. -/
def maxWrongGuesses : Int := 3

/-- Rejection reasons of the legacy `validateLinkage`. -/
inductive Reason where
  | duplicate
  | notConnected
  | complete
deriving DecidableEq, Repr

/-- Result of the legacy `validateLinkage`. -/
inductive VResult where
  | invalid : Reason → VResult
  | valid : Nat → VResult
deriving DecidableEq, Repr

/-- Which side of a gap a connection point sits on. -/
inductive Side where
  | left
  | right
deriving DecidableEq, Repr

/-- The wrong-guess accounting repeated verbatim in every rejection branch
of the source: `this.wrongGuesses++; if (this.wrongGuesses >=
this.maxWrongGuesses) this.failGame();`. -/
def wrongGuess (st : GameState) : GameState :=
  let w := st.wrongGuesses + 1
  if maxWrongGuesses ≤ w then
    { st with wrongGuesses := w, gameFailed := true }
  else
    { st with wrongGuesses := w }

/-- The `connectionPoints` loop of the legacy `validateLinkage` for chains
of length ≥ 4: for every gap, push the node on its left (side `left`) and
the node on its right (side `right`), in index order; `i` is the index of
the first listed element. -/
def connPoints (conn : ConnTable) : Nat → List Player → List (Nat × Side)
  | _, [] => []
  | _, [_] => []
  | i, p :: q :: rest =>
    (if arePlayersLinked conn p.id q.id then []
     else [(i, Side.left), (i + 1, Side.right)]) ++
      connPoints conn (i + 1) (q :: rest)

/-- The `validConnections` filter of the legacy `validateLinkage`: the guess
must link to the connection point, and the point's gap-side slot must not
already be occupied by a linked neighbour. -/
def validConn (conn : ConnTable) (chain : List Player) (pid : Nat)
    (cp : Nat × Side) : Bool :=
  if !arePlayersLinked conn pid (chain.getD cp.1 dummy).id then false
  else
    match cp.2 with
    | Side.left =>
      if cp.1 + 1 < chain.length then
        !arePlayersLinked conn (chain.getD cp.1 dummy).id
          (chain.getD (cp.1 + 1) dummy).id
      else true
    | Side.right =>
      if 1 ≤ cp.1 then
        !arePlayersLinked conn (chain.getD cp.1 dummy).id
          (chain.getD (cp.1 - 1) dummy).id
      else true

/-- The legacy `validateLinkage(playerId)` with its hard-coded branches for
chain lengths 2 and 3 and the gap-based general branch. -/
def validateLinkage (conn : ConnTable) (st : GameState) (pid : Nat) :
    GameState × VResult :=
  if st.playerChain.any (fun p => p.id == pid) then
    (st, .invalid .duplicate)
  else if st.playerChain.length = 2 then
    let leftTarget := st.playerChain.getD 0 dummy
    let rightTarget := st.playerChain.getD 1 dummy
    let cl := arePlayersLinked conn pid leftTarget.id
    let cr := arePlayersLinked conn pid rightTarget.id
    if !cl && !cr then (wrongGuess st, .invalid .notConnected)
    else (st, .valid 1)
  else if st.playerChain.length = 3 then
    let leftTarget := st.playerChain.getD 0 dummy
    let middlePlayer := st.playerChain.getD 1 dummy
    let rightTarget := st.playerChain.getD 2 dummy
    let l2m := arePlayersLinked conn leftTarget.id middlePlayer.id
    let m2r := arePlayersLinked conn middlePlayer.id rightTarget.id
    let cL := arePlayersLinked conn pid leftTarget.id
    let cM := arePlayersLinked conn pid middlePlayer.id
    let cR := arePlayersLinked conn pid rightTarget.id
    if !l2m && !m2r then
      if cL then (st, .valid 1)
      else if cR then (st, .valid 2)
      else if cM then (st, .valid (if cL then 1 else 2))
      else (wrongGuess st, .invalid .notConnected)
    else if !l2m then
      if cL then (st, .valid 1)
      else if cM then (st, .valid 1)
      else (wrongGuess st, .invalid .notConnected)
    else if !m2r then
      if cM then (st, .valid 2)
      else if cR then (st, .valid 2)
      else (wrongGuess st, .invalid .notConnected)
    else
      (st, .invalid .complete)
  else
    let connectionPoints := connPoints conn 0 st.playerChain
    if connectionPoints.isEmpty then
      (wrongGuess st, .invalid .complete)
    else
      match connectionPoints.filter (validConn conn st.playerChain pid) with
      | [] => (wrongGuess st, .invalid .notConnected)
      | cp :: _ =>
        (st, .valid (match cp.2 with
          | Side.right => cp.1
          | Side.left => cp.1 + 1))

/-- The legacy `insertPlayerInChain`: `splice(insertionIndex, 0,
{...player, isTarget: false})`, clamping the index like `splice`. -/
def insertPlayerInChain (chain : List Player) (pid : Nat) (idx : Nat) :
    List Player :=
  chain.insertIdx (min idx chain.length) ⟨pid, false⟩

/-- The legacy `isPuzzleComplete`: every adjacent pair linked (no
non-target requirement in this version). -/
def isPuzzleComplete (conn : ConnTable) (chain : List Player) : Bool :=
  chainOk conn (chain.map Player.id)

/-- The legacy `addLinkage()` (submit a guess): early return when complete,
validate, insert, re-check completion.  Only the resulting state is
needed by the invariant claims. -/
def addLinkage (conn : ConnTable) (st : GameState) (pid : Nat) : GameState :=
  if st.gameComplete then st
  else
    match validateLinkage conn st pid with
    | (st', .invalid _) => st'
    | (st', .valid idx) =>
      let chain' := insertPlayerInChain st'.playerChain pid idx
      let st'' := { st' with playerChain := chain' }
      if isPuzzleComplete conn chain' then
        { st'' with gameComplete := true }
      else
        st''

/-- The legacy `cascadeRemoval(removedIndex)`: find the first gap, keep the
targets, and keep the guesses on the removed player's side only up to the
removed position (the rest of that run up to the gap is dropped); with no
gap, drop only the removed player. -/
def cascadeRemoval (conn : ConnTable) (chain : List Player)
    (removedIndex : Nat) : List Player :=
  let leftTarget := chain.getD 0 dummy
  let rightTarget := chain.getD (chain.length - 1) dummy
  let gapIndex := (List.range (chain.length - 1)).find? (fun i =>
    !arePlayersLinked conn (chain.getD i dummy).id
      (chain.getD (i + 1) dummy).id)
  let middle :=
    match gapIndex with
    | none =>
      ((List.range' 1 (chain.length - 2)).filter
        (fun i => i ≠ removedIndex)).map (fun i => chain.getD i dummy)
    | some g =>
      if removedIndex ≤ g then
        (List.range' 1 (removedIndex - 1)).map (fun i => chain.getD i dummy)
          ++ (List.range' (g + 1) (chain.length - 2 - g)).map
            (fun i => chain.getD i dummy)
      else
        (List.range' 1 g).map (fun i => chain.getD i dummy)
          ++ (List.range' (removedIndex + 1)
            (chain.length - 2 - removedIndex)).map
            (fun i => chain.getD i dummy)
  [leftTarget] ++ middle ++ [rightTarget]

/-- The legacy `removePlayer(playerId)`: guarded on complete/failed and on
targets, cascade, re-check completion. -/
def removePlayer (conn : ConnTable) (st : GameState) (pid : Nat) :
    GameState :=
  if st.gameComplete || st.gameFailed then st
  else
    match st.playerChain.findIdx? (fun p => p.id == pid) with
    | none => st
    | some i =>
      if (st.playerChain.getD i dummy).isTarget then st
      else
        let chain2 := cascadeRemoval conn st.playerChain i
        let st' := { st with playerChain := chain2 }
        if isPuzzleComplete conn chain2 then
          { st' with gameComplete := true }
        else
          st'

end Legacy


lemma find?_range'_first (p : Nat → Bool) :
    ∀ (k a g : Nat), a ≤ g → g < a + k → p g = true →
      (∀ j, a ≤ j → j < g → p j = false) →
      (List.range' a k).find? p = some g := by
  intro k
  induction k with
  | zero =>
    intro a g h1 h2 _ _
    omega
  | succ k ih =>
    intro a g h1 h2 hp hlow
    rw [List.range'_succ a k 1]
    by_cases hag : a = g
    · rw [List.find?_cons_of_pos]
      · rw [hag]
      · rw [hag]; exact hp
    · rw [List.find?_cons_of_neg]
      · exact ih (a + 1) g (by omega) (by omega) hp
          (fun j hj1 hj2 => hlow j (by omega) hj2)
      · rw [hlow a (le_refl a) (by omega)]
        simp

lemma map_getD_range' (c : List Player) :
    ∀ (k a : Nat), a + k ≤ c.length →
      (List.range' a k).map (fun i => c.getD i dummy) =
        (c.drop a).take k := by
  intro k
  induction k with
  | zero =>
    intro a _
    simp
  | succ k ih =>
    intro a h
    rw [List.range'_succ a k 1]
    simp only [List.map_cons]
    have ha : a < c.length := by omega
    rw [ih (a + 1) (by omega)]
    have hdrop : c.drop a = c.getD a dummy :: c.drop (a + 1) := by
      rw [List.getD_eq_getElem c dummy ha]
      exact List.drop_eq_getElem_cons ha
    rw [hdrop]
    rfl

/-- C2 as amended: in the legacy version, for an open chain whose single
gap sits between positions `g` and `g + 1` and a guessed (non-anchor)
player at position `i`, `cascadeRemoval` removes exactly the removed
player together with the guesses strictly between `i` and the gap on
`i`'s run — i.e. it keeps precisely the prefix of `i`'s run up to (not
including) `i` and the whole opposite run, anchors included.  (The
difficulty-mode `removePlayer` removes only a subset of that segment; see
the counterexample.) -/
theorem C2_amended_cascadeRemoval_exact (conn : ConnTable)
    (c : List Player) (g i : Nat)
    (hg : g < c.length - 1)
    (hgap : ∀ j, j < c.length - 1 →
      ((arePlayersLinked conn (c.getD j dummy).id
        (c.getD (j + 1) dummy).id = true) ↔ j ≠ g))
    (hi1 : 1 ≤ i) (hi2 : i ≤ c.length - 2) :
    Legacy.cascadeRemoval conn c i =
      if i ≤ g then c.take i ++ c.drop (g + 1)
      else c.take (g + 1) ++ c.drop (i + 1) := by
  have hlen : 3 ≤ c.length := by omega
  have hfind : (List.range (c.length - 1)).find? (fun j =>
      !arePlayersLinked conn (c.getD j dummy).id
        (c.getD (j + 1) dummy).id) = some g := by
    rw [List.range_eq_range']
    apply find?_range'_first _ _ 0 g (Nat.zero_le g) (by omega)
    · cases hl : arePlayersLinked conn (c.getD g dummy).id
          (c.getD (g + 1) dummy).id with
      | false => simp
      | true => exact absurd ((hgap g hg).mp hl) (by simp)
    · intro j _ hj2
      have hjlt : j < c.length - 1 := by omega
      have : arePlayersLinked conn (c.getD j dummy).id
          (c.getD (j + 1) dummy).id = true :=
        (hgap j hjlt).mpr (by omega)
      rw [this]
      rfl
  have htake : ∀ m : Nat, 1 ≤ m → m ≤ c.length →
      c.take m = c.getD 0 dummy ::
        (List.range' 1 (m - 1)).map (fun j => c.getD j dummy) := by
    intro m hm1 hm2
    have h0 : c.take m = (List.range' 0 m).map (fun j => c.getD j dummy) := by
      rw [map_getD_range' c m 0 (by omega)]
      simp
    rw [h0, show m = (m - 1) + 1 by omega, List.range'_succ 0 (m - 1) 1]
    rfl
  have hdrop : ∀ m : Nat, m + 1 ≤ c.length →
      c.drop m = (List.range' m (c.length - 1 - m)).map
          (fun j => c.getD j dummy) ++ [c.getD (c.length - 1) dummy] := by
    intro m hm
    have h1 : c.drop m = (List.range' m (c.length - m)).map
        (fun j => c.getD j dummy) := by
      rw [map_getD_range' c (c.length - m) m (by omega)]
      exact (List.take_of_length_le (by simp)).symm
    have h2 : List.range' m (c.length - m) =
        List.range' m (c.length - 1 - m) ++ [m + (c.length - 1 - m)] := by
      rw [show c.length - m = (c.length - 1 - m) + 1 by omega]
      exact List.range'_1_concat m (c.length - 1 - m)
    rw [h1, h2, List.map_append]
    simp only [List.map_cons, List.map_nil]
    rw [show m + (c.length - 1 - m) = c.length - 1 by omega]
  unfold Legacy.cascadeRemoval
  simp only [hfind]
  by_cases hig : i ≤ g
  · rw [if_pos hig, if_pos hig]
    rw [htake i hi1 (by omega),
      hdrop (g + 1) (by omega),
      show c.length - 1 - (g + 1) = c.length - 2 - g by omega]
    simp [List.append_assoc]
  · rw [if_neg hig, if_neg hig]
    rw [htake (g + 1) (by omega) (by omega),
      hdrop (i + 1) (by omega),
      show c.length - 1 - (i + 1) = c.length - 2 - i by omega,
      show g + 1 - 1 = g by omega]
    simp [List.append_assoc]

/-- Witness for C2 (amended): chain `[1, 2, 3, 4]` with its single gap
between positions 2 and 3; removing the guess at position 1 keeps only the
anchors — the guess 3, strictly between position 1 and the gap, is
removed even though it is directly linked to the anchor 1. -/
theorem C2_witness :
    Legacy.cascadeRemoval exConn3
      [⟨1, true⟩, ⟨2, false⟩, ⟨3, false⟩, ⟨4, true⟩] 1 =
      [⟨1, true⟩, ⟨4, true⟩] := by
  have h := C2_amended_cascadeRemoval_exact exConn3
    [⟨1, true⟩, ⟨2, false⟩, ⟨3, false⟩, ⟨4, true⟩] 2 1
    (by decide) (by decide) (by decide) (by decide)
  simpa using h

/-- First chain member (placeholder on the empty chain). -/
def headPl (l : List Player) : Player := l.headD dummy

/-- Last chain member (placeholder on the empty chain). -/
def lastPl (l : List Player) : Player := l.getLastD dummy

lemma gapAt_le_one (conn : ConnTable) (p q : Player) : gapAt conn p q ≤ 1 := by
  unfold gapAt
  split <;> omega

lemma gapAt_eq_zero (conn : ConnTable) (p q : Player)
    (h : arePlayersLinked conn p.id q.id = true) : gapAt conn p q = 0 := by
  unfold gapAt
  rw [h]
  rfl

lemma gapCount_cons (conn : ConnTable) (x : Player) (l : List Player)
    (h : l ≠ []) :
    gapCount conn (x :: l) = gapAt conn x (headPl l) + gapCount conn l := by
  cases l with
  | nil => cases h rfl
  | cons y t => rfl

lemma headPl_append (l₁ : List Player) (a : Player) (l₂ l₂' : List Player) :
    headPl (l₁ ++ a :: l₂) = headPl (l₁ ++ a :: l₂') := by
  cases l₁ <;> rfl

lemma lastPl_append_singleton (l : List Player) (a : Player) :
    lastPl (l ++ [a]) = a := by
  unfold lastPl
  simp [List.getLastD_eq_getLast?]

lemma gapCount_append (conn : ConnTable) :
    ∀ (l₁ : List Player), l₁ ≠ [] → ∀ (l₂ : List Player), l₂ ≠ [] →
      gapCount conn (l₁ ++ l₂) = gapCount conn l₁ +
        gapAt conn (lastPl l₁) (headPl l₂) + gapCount conn l₂ := by
  intro l₁
  induction l₁ with
  | nil => intro h; cases h rfl
  | cons p t ih =>
    intro _ l₂ h₂
    cases t with
    | nil =>
      rw [List.cons_append, List.nil_append,
        gapCount_cons conn p l₂ h₂]
      have : lastPl [p] = p := rfl
      rw [this]
      simp [gapCount]
    | cons q t' =>
      have ht : (q :: t') ≠ [] := by simp
      have h1 : gapCount conn ((p :: q :: t') ++ l₂) =
          gapAt conn p q + gapCount conn ((q :: t') ++ l₂) := rfl
      have h2 : gapCount conn (p :: q :: t') =
          gapAt conn p q + gapCount conn (q :: t') := rfl
      have h3 : lastPl (p :: q :: t') = lastPl (q :: t') := by
        unfold lastPl
        simp [List.getLastD_eq_getLast?, List.getLast?_cons_cons]
      rw [h1, ih ht l₂ h₂, h2, h3]
      omega

lemma insertIdx_take_drop (x : Player) :
    ∀ (k : Nat) (l : List Player), k ≤ l.length →
      l.insertIdx k x = l.take k ++ x :: l.drop k := by
  intro k
  induction k with
  | zero =>
    intro l _
    simp [List.insertIdx]
  | succ k ih =>
    intro l h
    cases l with
    | nil => simp at h
    | cons a t =>
      have := ih t (by simpa using h)
      simp only [List.insertIdx_succ_cons, List.take_succ_cons,
        List.drop_succ_cons, this, List.cons_append]

lemma getD_append_cons (a : Player) :
    ∀ (l₁ : List Player) (rest : List Player),
      (l₁ ++ a :: rest).getD l₁.length dummy = a := by
  intro l₁
  induction l₁ with
  | nil => intro rest; rfl
  | cons p t ih =>
    intro rest
    simpa using ih rest

lemma take_append_cons (a : Player) :
    ∀ (l₁ : List Player) (rest : List Player),
      (l₁ ++ a :: rest).take (l₁.length + 1) = l₁ ++ [a] := by
  intro l₁
  induction l₁ with
  | nil => intro rest; rfl
  | cons p t ih =>
    intro rest
    simpa using ih rest

lemma drop_append_cons (a : Player) :
    ∀ (l₁ : List Player) (rest : List Player),
      (l₁ ++ a :: rest).drop (l₁.length + 1) = rest := by
  intro l₁
  induction l₁ with
  | nil => intro rest; rfl
  | cons p t ih =>
    intro rest
    simp only [List.cons_append, List.length_cons, List.drop_succ_cons]
    exact ih rest

lemma connPoints_eq_nil (conn : ConnTable) :
    ∀ (l : List Player) (i : Nat), gapCount conn l = 0 →
      Legacy.connPoints conn i l = [] := by
  intro l
  induction l with
  | nil => intro i _; rfl
  | cons p t ih =>
    intro i h
    cases t with
    | nil => rfl
    | cons q rest =>
      have h0 : gapAt conn p q = 0 ∧ gapCount conn (q :: rest) = 0 := by
        have : gapCount conn (p :: q :: rest) =
            gapAt conn p q + gapCount conn (q :: rest) := rfl
        omega
      have hlink : arePlayersLinked conn p.id q.id = true := by
        by_contra hc
        have : gapAt conn p q = 1 := by
          unfold gapAt
          rw [if_neg hc]
        omega
      have hstep : Legacy.connPoints conn i (p :: q :: rest) =
          (if arePlayersLinked conn p.id q.id then []
           else [(i, Legacy.Side.left), (i + 1, Legacy.Side.right)]) ++
            Legacy.connPoints conn (i + 1) (q :: rest) := rfl
      rw [hstep, if_pos hlink, ih (i + 1) h0.2]
      rfl

lemma one_gap_split (conn : ConnTable) :
    ∀ (l : List Player) (i : Nat), gapCount conn l = 1 →
      ∃ l₁ a b l₂, l = l₁ ++ a :: b :: l₂ ∧
        arePlayersLinked conn a.id b.id = false ∧
        gapCount conn (l₁ ++ [a]) = 0 ∧
        gapCount conn (b :: l₂) = 0 ∧
        Legacy.connPoints conn i l =
          [(i + l₁.length, Legacy.Side.left),
           (i + l₁.length + 1, Legacy.Side.right)] := by
  intro l
  induction l with
  | nil => intro i h; simp [gapCount] at h
  | cons p t ih =>
    intro i h
    cases t with
    | nil => simp [gapCount] at h
    | cons q rest =>
      have hunf : gapCount conn (p :: q :: rest) =
          gapAt conn p q + gapCount conn (q :: rest) := rfl
      have hstep : Legacy.connPoints conn i (p :: q :: rest) =
          (if arePlayersLinked conn p.id q.id then []
           else [(i, Legacy.Side.left), (i + 1, Legacy.Side.right)]) ++
            Legacy.connPoints conn (i + 1) (q :: rest) := rfl
      cases hlink : arePlayersLinked conn p.id q.id with
      | true =>
        have hpq : gapAt conn p q = 0 := gapAt_eq_zero conn p q hlink
        have hrest : gapCount conn (q :: rest) = 1 := by omega
        obtain ⟨l₁, a, b, l₂, hsp, hab, hleft, hright, hcp⟩ :=
          ih (i + 1) hrest
        refine ⟨p :: l₁, a, b, l₂, by simp [hsp], hab, ?_, hright, ?_⟩
        · have hne : (l₁ ++ [a]) ≠ [] := by simp
          rw [List.cons_append, gapCount_cons conn p (l₁ ++ [a]) hne]
          have hq : headPl (l₁ ++ [a]) = q := by
            have h1 : headPl (l₁ ++ [a]) = headPl (l₁ ++ a :: b :: l₂) := by
              cases l₁ <;> rfl
            rw [h1, ← hsp]
            rfl
          rw [hq, gapAt_eq_zero conn p q hlink, hleft]
        · rw [hstep, if_pos hlink, hcp]
          simp only [List.nil_append, List.length_cons]
          have h2 : i + 1 + l₁.length = i + (l₁.length + 1) := by omega
          rw [h2]
      | false =>
        have hpq : gapAt conn p q = 1 := by
          unfold gapAt
          rw [hlink]
          rfl
        have hrest : gapCount conn (q :: rest) = 0 := by omega
        refine ⟨[], p, q, rest, rfl, hlink, by simp [gapCount], hrest, ?_⟩
        rw [hstep, if_neg (by simp [hlink]), connPoints_eq_nil conn _ _ hrest]
        simp

lemma gapAt_eq_one (conn : ConnTable) (p q : Player)
    (h : arePlayersLinked conn p.id q.id = false) : gapAt conn p q = 1 := by
  unfold gapAt
  rw [h]
  rfl

lemma legacy_validate_gap (conn : ConnTable)
    (hsymm : ∀ a b, arePlayersLinked conn a b = arePlayersLinked conn b a)
    (st : Legacy.GameState) (pid : Nat)
    (hgap : gapCount conn st.playerChain ≤ 1) :
    ∀ idx, (Legacy.validateLinkage conn st pid).2 =
        Legacy.VResult.valid idx →
      gapCount conn
        (Legacy.insertPlayerInChain st.playerChain pid idx) ≤ 1 := by
  intro idx hvalid
  unfold Legacy.validateLinkage at hvalid
  by_cases hdup : (st.playerChain.any (fun p => p.id == pid)) = true
  · rw [if_pos hdup] at hvalid
    simp at hvalid
  · rw [if_neg hdup] at hvalid
    by_cases hlen2 : st.playerChain.length = 2
    · rw [if_pos hlen2] at hvalid
      obtain ⟨p0, p1, hc⟩ := List.length_eq_two.mp hlen2
      rw [hc] at hvalid ⊢
      simp only [List.getD_cons_zero, List.getD_cons_succ] at hvalid
      by_cases hboth : (!arePlayersLinked conn pid p0.id &&
          !arePlayersLinked conn pid p1.id) = true
      · rw [if_pos hboth] at hvalid
        simp at hvalid
      · rw [if_neg hboth] at hvalid
        have hidx : idx = 1 := by simpa using hvalid.symm
        subst hidx
        have hins : Legacy.insertPlayerInChain [p0, p1] pid 1 =
            [p0, ⟨pid, false⟩, p1] := rfl
        rw [hins]
        have hcl_or : arePlayersLinked conn pid p0.id = true ∨
            arePlayersLinked conn pid p1.id = true := by
          cases h0 : arePlayersLinked conn pid p0.id with
          | true => exact Or.inl rfl
          | false =>
            cases h1 : arePlayersLinked conn pid p1.id with
            | true => exact Or.inr rfl
            | false => exact absurd (by rw [h0, h1]; rfl) hboth
        have hexp : gapCount conn [p0, ⟨pid, false⟩, p1] =
            gapAt conn p0 ⟨pid, false⟩ + gapAt conn ⟨pid, false⟩ p1 := by
          simp [gapCount]
        rw [hexp]
        rcases hcl_or with hcl | hcr
        · have e1 : gapAt conn p0 ⟨pid, false⟩ = 0 := by
            apply gapAt_eq_zero
            show arePlayersLinked conn p0.id pid = true
            rw [hsymm p0.id pid]
            exact hcl
          have e2 := gapAt_le_one conn (⟨pid, false⟩ : Player) p1
          omega
        · have e1 : gapAt conn ⟨pid, false⟩ p1 = 0 := gapAt_eq_zero _ _ _ hcr
          have e2 := gapAt_le_one conn p0 (⟨pid, false⟩ : Player)
          omega
    · rw [if_neg hlen2] at hvalid
      by_cases hlen3 : st.playerChain.length = 3
      · rw [if_pos hlen3] at hvalid
        obtain ⟨p0, p1, p2, hc⟩ := List.length_eq_three.mp hlen3
        rw [hc] at hvalid ⊢
        rw [hc] at hgap
        simp only [List.getD_cons_zero, List.getD_cons_succ] at hvalid
        have hexp3 : gapCount conn [p0, p1, p2] =
            gapAt conn p0 p1 + gapAt conn p1 p2 := by
          simp [gapCount]
        by_cases h2g : (!arePlayersLinked conn p0.id p1.id &&
            !arePlayersLinked conn p1.id p2.id) = true
        · exfalso
          rw [Bool.and_eq_true] at h2g
          have e1 : arePlayersLinked conn p0.id p1.id = false := by
            simpa using h2g.1
          have e2 : arePlayersLinked conn p1.id p2.id = false := by
            simpa using h2g.2
          have := gapAt_eq_one conn p0 p1 e1
          have := gapAt_eq_one conn p1 p2 e2
          omega
        · rw [if_neg h2g] at hvalid
          by_cases hl2m : (!arePlayersLinked conn p0.id p1.id) = true
          · rw [if_pos hl2m] at hvalid
            have hm2r : arePlayersLinked conn p1.id p2.id = true := by
              cases hb : arePlayersLinked conn p1.id p2.id with
              | true => rfl
              | false =>
                refine absurd ?_ h2g
                rw [Bool.and_eq_true]
                exact ⟨hl2m, by rw [hb]; rfl⟩
            by_cases hcL : arePlayersLinked conn pid p0.id = true
            · rw [if_pos hcL] at hvalid
              have hidx : idx = 1 := by simpa using hvalid.symm
              subst hidx
              have hins : Legacy.insertPlayerInChain [p0, p1, p2] pid 1 =
                  [p0, ⟨pid, false⟩, p1, p2] := rfl
              rw [hins]
              have hexp : gapCount conn [p0, ⟨pid, false⟩, p1, p2] =
                  gapAt conn p0 ⟨pid, false⟩ + gapAt conn ⟨pid, false⟩ p1 +
                    gapAt conn p1 p2 := by
                simp [gapCount]
                omega
              rw [hexp]
              have e1 : gapAt conn p0 ⟨pid, false⟩ = 0 := by
                apply gapAt_eq_zero
                show arePlayersLinked conn p0.id pid = true
                rw [hsymm p0.id pid]
                exact hcL
              have e2 := gapAt_le_one conn (⟨pid, false⟩ : Player) p1
              have e3 := gapAt_eq_zero conn p1 p2 hm2r
              omega
            · rw [if_neg hcL] at hvalid
              by_cases hcM : arePlayersLinked conn pid p1.id = true
              · rw [if_pos hcM] at hvalid
                have hidx : idx = 1 := by simpa using hvalid.symm
                subst hidx
                have hins : Legacy.insertPlayerInChain [p0, p1, p2] pid 1 =
                    [p0, ⟨pid, false⟩, p1, p2] := rfl
                rw [hins]
                have hexp : gapCount conn [p0, ⟨pid, false⟩, p1, p2] =
                    gapAt conn p0 ⟨pid, false⟩ +
                      gapAt conn ⟨pid, false⟩ p1 + gapAt conn p1 p2 := by
                  simp [gapCount]
                  omega
                rw [hexp]
                have e1 := gapAt_le_one conn p0 (⟨pid, false⟩ : Player)
                have e2 : gapAt conn ⟨pid, false⟩ p1 = 0 :=
                  gapAt_eq_zero _ _ _ hcM
                have e3 := gapAt_eq_zero conn p1 p2 hm2r
                omega
              · rw [if_neg hcM] at hvalid
                simp at hvalid
          · rw [if_neg hl2m] at hvalid
            have hl2mT : arePlayersLinked conn p0.id p1.id = true := by
              cases hb : arePlayersLinked conn p0.id p1.id with
              | true => rfl
              | false => exact absurd (by rw [hb]; rfl) hl2m
            by_cases hm2r : (!arePlayersLinked conn p1.id p2.id) = true
            · rw [if_pos hm2r] at hvalid
              by_cases hcM : arePlayersLinked conn pid p1.id = true
              · rw [if_pos hcM] at hvalid
                have hidx : idx = 2 := by simpa using hvalid.symm
                subst hidx
                have hins : Legacy.insertPlayerInChain [p0, p1, p2] pid 2 =
                    [p0, p1, ⟨pid, false⟩, p2] := rfl
                rw [hins]
                have hexp : gapCount conn [p0, p1, ⟨pid, false⟩, p2] =
                    gapAt conn p0 p1 + gapAt conn p1 ⟨pid, false⟩ +
                      gapAt conn ⟨pid, false⟩ p2 := by
                  simp [gapCount]
                  omega
                rw [hexp]
                have e1 := gapAt_eq_zero conn p0 p1 hl2mT
                have e2 : gapAt conn p1 ⟨pid, false⟩ = 0 := by
                  apply gapAt_eq_zero
                  show arePlayersLinked conn p1.id pid = true
                  rw [hsymm p1.id pid]
                  exact hcM
                have e3 := gapAt_le_one conn (⟨pid, false⟩ : Player) p2
                omega
              · rw [if_neg hcM] at hvalid
                by_cases hcR : arePlayersLinked conn pid p2.id = true
                · rw [if_pos hcR] at hvalid
                  have hidx : idx = 2 := by simpa using hvalid.symm
                  subst hidx
                  have hins : Legacy.insertPlayerInChain [p0, p1, p2] pid 2 =
                      [p0, p1, ⟨pid, false⟩, p2] := rfl
                  rw [hins]
                  have hexp : gapCount conn [p0, p1, ⟨pid, false⟩, p2] =
                      gapAt conn p0 p1 + gapAt conn p1 ⟨pid, false⟩ +
                        gapAt conn ⟨pid, false⟩ p2 := by
                    simp [gapCount]
                    omega
                  rw [hexp]
                  have e1 := gapAt_eq_zero conn p0 p1 hl2mT
                  have e2 := gapAt_le_one conn p1 (⟨pid, false⟩ : Player)
                  have e3 : gapAt conn ⟨pid, false⟩ p2 = 0 :=
                    gapAt_eq_zero _ _ _ hcR
                  omega
                · rw [if_neg hcR] at hvalid
                  simp at hvalid
            · rw [if_neg hm2r] at hvalid
              simp at hvalid
      · rw [if_neg hlen3] at hvalid
        by_cases hemp :
            (Legacy.connPoints conn 0 st.playerChain).isEmpty = true
        · rw [if_pos hemp] at hvalid
          simp at hvalid
        · rw [if_neg hemp] at hvalid
          have hgap1 : gapCount conn st.playerChain = 1 := by
            rcases Nat.le_one_iff_eq_zero_or_eq_one.mp hgap with h0 | h1
            · exfalso
              apply hemp
              rw [connPoints_eq_nil conn _ 0 h0]
              rfl
            · exact h1
          obtain ⟨l₁, a, b, l₂, hsp, hab, hleft, hright, hcp⟩ :=
            one_gap_split conn st.playerChain 0 hgap1
          rw [hcp] at hvalid
          simp only [Nat.zero_add] at hvalid
          have hga : st.playerChain.getD l₁.length dummy = a := by
            rw [hsp]
            exact getD_append_cons a l₁ _
          have hgb : st.playerChain.getD (l₁.length + 1) dummy = b := by
            rw [hsp,
              show l₁ ++ a :: b :: l₂ = (l₁ ++ [a]) ++ b :: l₂ by simp]
            have h1 := getD_append_cons b (l₁ ++ [a]) l₂
            simpa using h1
          have hlenc : st.playerChain.length = l₁.length + 2 + l₂.length := by
            rw [hsp]
            simp
            omega
          have htk : st.playerChain.take (l₁.length + 1) = l₁ ++ [a] := by
            rw [hsp]
            exact take_append_cons a l₁ _
          have hdp : st.playerChain.drop (l₁.length + 1) = b :: l₂ := by
            rw [hsp]
            exact drop_append_cons a l₁ _
          have hins : Legacy.insertPlayerInChain st.playerChain pid
              (l₁.length + 1) =
              (l₁ ++ [a]) ++ ⟨pid, false⟩ :: (b :: l₂) := by
            unfold Legacy.insertPlayerInChain
            rw [show min (l₁.length + 1) st.playerChain.length =
              l₁.length + 1 by omega]
            rw [insertIdx_take_drop _ (l₁.length + 1) _ (by omega)]
            rw [htk, hdp]
          have hbound : gapCount conn
              ((l₁ ++ [a]) ++ ⟨pid, false⟩ :: (b :: l₂)) =
              gapAt conn a ⟨pid, false⟩ + gapAt conn ⟨pid, false⟩ b := by
            rw [gapCount_append conn (l₁ ++ [a]) (by simp)
              (⟨pid, false⟩ :: (b :: l₂)) (by simp)]
            rw [gapCount_cons conn ⟨pid, false⟩ (b :: l₂) (by simp)]
            rw [hleft, hright, lastPl_append_singleton]
            have hh : headPl (⟨pid, false⟩ :: (b :: l₂)) = ⟨pid, false⟩ :=
              rfl
            have hh2 : headPl (b :: l₂) = b := rfl
            rw [hh, hh2]
            omega
          by_cases hA : arePlayersLinked conn pid a.id = true
          · have hv1 : Legacy.validConn conn st.playerChain pid
                (l₁.length, Legacy.Side.left) = true := by
              unfold Legacy.validConn
              simp only [hga, hgb, hA, Bool.not_true]
              rw [if_neg (by simp)]
              rw [if_pos (by omega)]
              rw [hab]
              rfl
            rw [List.filter_cons, hv1] at hvalid
            simp only [if_true] at hvalid
            have hidx : idx = l₁.length + 1 := by simpa using hvalid.symm
            subst hidx
            rw [hins, hbound]
            have e1 : gapAt conn a ⟨pid, false⟩ = 0 := by
              apply gapAt_eq_zero
              show arePlayersLinked conn a.id pid = true
              rw [hsymm a.id pid]
              exact hA
            have e2 := gapAt_le_one conn (⟨pid, false⟩ : Player) b
            omega
          · have hAf : arePlayersLinked conn pid a.id = false := by
              cases hx : arePlayersLinked conn pid a.id with
              | false => rfl
              | true => exact absurd hx hA
            have hv1 : Legacy.validConn conn st.playerChain pid
                (l₁.length, Legacy.Side.left) = false := by
              unfold Legacy.validConn
              dsimp only
              rw [hga, hAf]
              rfl
            by_cases hB : arePlayersLinked conn pid b.id = true
            · have hv2 : Legacy.validConn conn st.playerChain pid
                  (l₁.length + 1, Legacy.Side.right) = true := by
                unfold Legacy.validConn
                simp only [hgb, hB, Bool.not_true]
                rw [if_neg (by simp)]
                rw [if_pos (by omega)]
                rw [show l₁.length + 1 - 1 = l₁.length by omega]
                rw [hga]
                rw [hsymm b.id a.id, hab]
                rfl
              rw [List.filter_cons, hv1] at hvalid
              simp only [if_false, Bool.false_eq_true] at hvalid
              rw [List.filter_cons, hv2] at hvalid
              simp only [if_true, List.filter_nil] at hvalid
              have hidx : idx = l₁.length + 1 := by simpa using hvalid.symm
              subst hidx
              rw [hins, hbound]
              have e1 := gapAt_le_one conn a (⟨pid, false⟩ : Player)
              have e2 : gapAt conn ⟨pid, false⟩ b = 0 :=
                gapAt_eq_zero _ _ _ hB
              omega
            · have hBf : arePlayersLinked conn pid b.id = false := by
                cases hx : arePlayersLinked conn pid b.id with
                | false => rfl
                | true => exact absurd hx hB
              have hv2 : Legacy.validConn conn st.playerChain pid
                  (l₁.length + 1, Legacy.Side.right) = false := by
                unfold Legacy.validConn
                dsimp only
                rw [hgb, hBf]
                rfl
              rw [List.filter_cons, hv1] at hvalid
              simp only [if_false, Bool.false_eq_true] at hvalid
              rw [List.filter_cons, hv2] at hvalid
              simp only [if_false, List.filter_nil,
                Bool.false_eq_true] at hvalid
              simp at hvalid

lemma legacy_wrongGuess_chain (st : Legacy.GameState) :
    (Legacy.wrongGuess st).playerChain = st.playerChain := by
  unfold Legacy.wrongGuess
  dsimp only
  split <;> rfl

lemma legacy_validate_chain (conn : ConnTable) (st : Legacy.GameState)
    (pid : Nat) :
    (Legacy.validateLinkage conn st pid).1.playerChain =
      st.playerChain := by
  unfold Legacy.validateLinkage
  dsimp only
  repeat' split
  all_goals first
    | rfl
    | exact legacy_wrongGuess_chain st

lemma legacy_insert_length (chain : List Player) (pid idx : Nat) :
    (Legacy.insertPlayerInChain chain pid idx).length =
      chain.length + 1 := by
  unfold Legacy.insertPlayerInChain
  rw [insertIdx_take_drop ⟨pid, false⟩ (min idx chain.length) chain
    (Nat.min_le_right _ _)]
  simp only [List.length_append, List.length_cons, List.length_take,
    List.length_drop]
  omega

lemma legacy_step_preserves (conn : ConnTable)
    (hsymm : ∀ a b, arePlayersLinked conn a b = arePlayersLinked conn b a)
    (st : Legacy.GameState) (pid : Nat)
    (hlen : 2 ≤ st.playerChain.length)
    (hgap : gapCount conn st.playerChain ≤ 1) :
    2 ≤ (Legacy.addLinkage conn st pid).playerChain.length ∧
      gapCount conn (Legacy.addLinkage conn st pid).playerChain ≤ 1 := by
  unfold Legacy.addLinkage
  by_cases hc : st.gameComplete = true
  · rw [if_pos hc]
    exact ⟨hlen, hgap⟩
  · rw [if_neg hc]
    have hchain0 := legacy_validate_chain conn st pid
    rcases hv : Legacy.validateLinkage conn st pid with ⟨st', r⟩
    rw [hv] at hchain0
    cases r with
    | invalid r =>
      dsimp only
      rw [hchain0]
      exact ⟨hlen, hgap⟩
    | valid idx =>
      have hg := legacy_validate_gap conn hsymm st pid hgap idx
        (by rw [hv])
      have hl := legacy_insert_length st.playerChain pid idx
      dsimp only
      rw [hchain0]
      split
      · exact ⟨by dsimp only; omega, by dsimp only; exact hg⟩
      · exact ⟨by dsimp only; omega, by dsimp only; exact hg⟩

/-- Symmetry of a concrete connection table can be certified by this
executable check: every stored edge has its reverse edge stored. -/
def symCheck (conn : ConnTable) : Bool :=
  conn.all (fun pr => pr.2.all (fun b => arePlayersLinked conn b pr.1))

lemma linked_symm_of_symCheck (conn : ConnTable)
    (h : symCheck conn = true) :
    ∀ a b, arePlayersLinked conn a b = arePlayersLinked conn b a := by
  have hdir : ∀ a b, arePlayersLinked conn a b = true →
      arePlayersLinked conn b a = true := by
    intro a b hab
    unfold arePlayersLinked nbrs at hab
    cases hfind : conn.find? (fun pr => pr.1 == a) with
    | none =>
      rw [hfind] at hab
      cases hab
    | some pr =>
      rw [hfind] at hab
      have hpr : pr ∈ conn := List.mem_of_find?_eq_some hfind
      have hkey : pr.1 = a := by
        have := List.find?_some hfind
        simpa using this
      have hb : b ∈ pr.2 := List.mem_of_elem_eq_true hab
      unfold symCheck at h
      rw [List.all_eq_true] at h
      have h2 := h pr hpr
      rw [List.all_eq_true] at h2
      have h3 := h2 b hb
      rw [hkey] at h3
      simpa using h3
  intro a b
  cases hab : arePlayersLinked conn a b with
  | true => rw [(hdir a b hab)]
  | false =>
    cases hba : arePlayersLinked conn b a with
    | false => rfl
    | true =>
      rw [hdir b a hba] at hab
      cases hab

/-- The initial legacy session between anchors `a` and `d`. -/
def legacyInit (a d : Nat) : Legacy.GameState :=
  ⟨[⟨a, true⟩, ⟨d, true⟩], 0, false, false⟩

/-- C6 as amended: in the legacy version, over a symmetric connection
table, starting from the initial two-anchor chain, after ANY sequence of
submitted guesses (each accepted one inserted by `addLinkage`, each
rejected one leaving the chain unchanged) the chain contains zero or one
gap, never two or more. -/
theorem C6_amended_legacy_one_gap (conn : ConnTable)
    (hsymm : ∀ a b, arePlayersLinked conn a b = arePlayersLinked conn b a)
    (a d : Nat) (guesses : List Nat) :
    gapCount conn
      ((guesses.foldl (Legacy.addLinkage conn)
        (legacyInit a d)).playerChain) ≤ 1 := by
  suffices h : ∀ (gs : List Nat) (st : Legacy.GameState),
      2 ≤ st.playerChain.length → gapCount conn st.playerChain ≤ 1 →
      2 ≤ (gs.foldl (Legacy.addLinkage conn) st).playerChain.length ∧
        gapCount conn
          (gs.foldl (Legacy.addLinkage conn) st).playerChain ≤ 1 by
    refine (h guesses (legacyInit a d) (by simp [legacyInit]) ?_).2
    have hinit : gapCount conn (legacyInit a d).playerChain =
        gapAt conn ⟨a, true⟩ ⟨d, true⟩ := by
      simp [legacyInit, gapCount]
    rw [hinit]
    exact gapAt_le_one conn _ _
  intro gs
  induction gs with
  | nil =>
    intro st h1 h2
    exact ⟨h1, h2⟩
  | cons g gs ih =>
    intro st h1 h2
    rw [List.foldl_cons]
    obtain ⟨h1', h2'⟩ := legacy_step_preserves conn hsymm st g h1 h2
    exact ih _ h1' h2'

/-- Witness for C6 (amended): the play 2 then 3 between anchors 1 and 4 on
the symmetric path table completes the chain `[1, 2, 3, 4]`; the gap count
never exceeds one. -/
theorem C6_witness :
    gapCount exConn4
      ((([2, 3] : List Nat).foldl (Legacy.addLinkage exConn4)
        (legacyInit 1 4)).playerChain) ≤ 1 :=
  C6_amended_legacy_one_gap exConn4
    (linked_symm_of_symCheck exConn4 (by decide)) 1 4 [2, 3]
